import Mathlib

/-!
Verification of the script-assembly engine of the fedora-things-to-do
repository, against its natural-language specification.

The embedding follows `scripts/builder.py` (the current builder, used by
`ui/main_panel.py` via `from scripts import build_script, build_full_script`),
`utils/helpers.py` (`should_quiet_redirect`), and, where a claim cites it, the
legacy top-level `builder.py`.  The catalog (`nattd.json`) is external data and
is therefore a parameter of every renderer, exactly as `load_nattd()` delivers
it.  Python strings are `String`, Python dicts are insertion-ordered
association lists (`alookup` / `dictSet` reproduce `d[k]` / `d[k] = v`).
-/

namespace NATTD

/-! ## Python string primitives -/

/-- The characters Python's `str.strip()` removes by default. -/
def wsChar (c : Char) : Bool :=
  c == ' ' || c == '\t' || c == '\n' || c == '\r' || c == Char.ofNat 11 || c == Char.ofNat 12

/-- Python `s.strip()` on a character list. -/
def stripChars (l : List Char) : List Char :=
  ((l.dropWhile wsChar).reverse.dropWhile wsChar).reverse

/-- Python `s.strip()`. -/
def pystrip (s : String) : String := ⟨stripChars s.data⟩

/-- Boolean test that `p` is a leading run of `s` (Python `s.startswith(p)`). -/
def isPre : List Char → List Char → Bool
  | [], _ => true
  | _ :: _, [] => false
  | a :: as, b :: bs => a == b && isPre as bs

/-- Python `s.startswith(p)`. -/
def strStarts (s p : String) : Bool := isPre p.data s.data

/-- Boolean substring test on character lists. -/
def subList (p : List Char) : List Char → Bool
  | [] => p.isEmpty
  | c :: cs => isPre p (c :: cs) || subList p cs

/-- Python `p in s` (substring containment). -/
def pyIn (p s : String) : Bool := subList p.data s.data

/-- Proposition that `p` occurs as a contiguous substring of `s`. -/
def occursIn (p s : List Char) : Prop := ∃ x y, s = x ++ p ++ y

/-- Worker for `replaceAll`, structurally recursive on a fuel bound on the
input length (so it evaluates inside the kernel). -/
def replaceAllGo (p r : List Char) : Nat → List Char → List Char
  | _, [] => []
  | 0, s => s
  | fuel + 1, c :: cs =>
    if !p.isEmpty && isPre p (c :: cs) then
      r ++ replaceAllGo p r fuel (cs.drop (p.length - 1))
    else
      c :: replaceAllGo p r fuel cs

/-- Python `s.replace(p, r)` for a non-empty pattern `p`: one left-to-right
pass replacing non-overlapping occurrences.  (All patterns used by the
builder are non-empty; for an empty `p` this returns `s` unchanged.) -/
def replaceAll (p r s : List Char) : List Char := replaceAllGo p r s.length s

/-- Python `s.replace(p, r)`. -/
def pyReplace (s p r : String) : String := ⟨replaceAll p.data r.data s.data⟩

/-- Python `"\n".join(l)`: the lines separated by single newlines. -/
def joinLines : List String → String
  | [] => ""
  | [a] => a
  | a :: rest => a ++ "\n" ++ joinLines rest

/-- Characters of Python's `str.title()`: a cased (alphabetic) character is
uppercased after a non-cased character and lowercased otherwise. -/
def titleChars : Bool → List Char → List Char
  | _, [] => []
  | prevCased, c :: cs =>
    let cased := c.isAlpha
    (if cased then (if prevCased then c.toLower else c.toUpper) else c) ::
      titleChars cased cs

/-- Python `s.title()` (ASCII). -/
def pyTitle (s : String) : String := ⟨titleChars false s.data⟩

/-! ## Python dicts as insertion-ordered association lists -/

/-- Python `d.get(k)` / `d[k]`: first binding of `k`. -/
def alookup {κ α : Type} [DecidableEq κ] (k : κ) : List (κ × α) → Option α
  | [] => none
  | (k2, v) :: t => if k2 = k then some v else alookup k t

/-- Python `d[k] = v`: replace the value in place if the key exists
(insertion order kept), otherwise append a new binding. -/
def dictSet {κ α : Type} [DecidableEq κ] (k : κ) (v : α) :
    List (κ × α) → List (κ × α)
  | [] => [(k, v)]
  | (k2, v2) :: t => if k2 = k then (k2, v) :: t else (k2, v2) :: dictSet k v t

/-! ## Data model

The catalog (`nattd.json`) and the user Selection, shaped exactly as the
builder reads them.  `Option` marks a dict key that may be absent; loosely
typed spots (a catalog value that may fail `isinstance(..., dict)`, a command
that is either one string or a list of strings) are tagged variants. -/

/-- A catalog `command` value: a single shell statement or a list of them. -/
inductive PyCmd where
  | str (s : String)
  | list (l : List String)
deriving DecidableEq

/-- Python falsiness of a command value (`if not commands:`). -/
def PyCmd.falsy : PyCmd → Bool
  | .str s => s == ""
  | .list l => l.isEmpty

/-- One entry of an `installation_types` mapping. -/
structure InstallType where
  command : Option PyCmd
  dependencies : List String
deriving DecidableEq

/-- A catalog entry of `additional_apps[cat]["apps"]` or
`customization["apps"]`. -/
structure AppEntry where
  name : Option String
  description : Option String
  command : Option PyCmd
  installation_types : Option (List (String × InstallType))
deriving DecidableEq

/-- One category of `additional_apps`: its display name and (when the key is
present) its `apps` mapping. -/
structure Category where
  name : Option String
  apps : Option (List (String × AppEntry))
deriving DecidableEq

/-- A `system_config` catalog value: `notDict` models a value that fails
`isinstance(..., dict)`; otherwise the fields the builder reads. -/
inductive ConfigEntry where
  | notDict
  | entry (name : Option String) (description : Option String) (command : Option PyCmd)
deriving DecidableEq

/-- An `essential_apps["apps"]` element: `bad` models an element that fails
`isinstance(app, dict) and "name" in app`. -/
inductive EssApp where
  | bad
  | app (name : String)
deriving DecidableEq

/-- The loaded catalog.  Outer `Option`: the top-level key may be absent;
for `essential_apps`/`customization` the inner `Option` is the `apps` key. -/
structure Nattd where
  system_config : Option (List (String × ConfigEntry))
  essential_apps : Option (Option (List EssApp))
  additional_apps : Option (List (String × Category))
  customization : Option (Option (List (String × AppEntry)))
deriving DecidableEq

/-- A per-app value of `options["additional_apps"][cat]`: either a value that
fails `isinstance(..., dict)` or `{"selected": ..., "installation_type"?: ...}`. -/
inductive AppSel where
  | notDict
  | sel (selected : Bool) (installation_type : Option String)
deriving DecidableEq

/-- A value of `options["customization"]`: a plain boolean or a (non-empty,
hence truthy) dict `{"selected": ..., "installation_type"?: ...}`. -/
inductive CustSel where
  | b (v : Bool)
  | d (selected : Bool) (installation_type : Option String)
deriving DecidableEq

/-- The user Selection (`options`), mirroring the dict the UI builds. -/
structure Options where
  system_config : Option (List (String × Bool))
  essential_apps : Option (List (String × Bool))
  additional_apps : Option (List (String × List (String × AppSel)))
  customization : Option (List (String × CustSel))
  hostname : Option String
  custom_script : Option String
deriving DecidableEq

/-! ## Dependency resolver (`scripts/builder.py`, `check_dependencies`) -/

/-- The codec options of `check_dependencies` (`scripts/builder.py` line 23). -/
def codecOptions : List String :=
  ["install_multimedia_codecs", "install_intel_codecs", "install_amd_codecs"]

/-- Value-level embedding of `check_dependencies` (`scripts/builder.py`
lines 5-30): copy the options, make sure `system_config` exists, and if any
codec option is enabled force `enable_rpmfusion` to `True`.  (The Python
`option in d and d.get(option, False)` test equals `alookup` returning
`some true` because the selection values are booleans.) -/
def check_dependencies (opts : Options) : Options :=
  let sc := opts.system_config.getD []
  let codec := codecOptions.any (fun o => (alookup o sc).getD false)
  let sc2 := if codec then dictSet "enable_rpmfusion" true sc else sc
  { opts with system_config := some sc2 }

/-! ## Verbosity policy -/

/-- The quiet-mode redirection suffix (`" > /dev/null 2>&1"` in Quiet mode,
empty otherwise). -/
def quietRedirect (output_mode : String) : String :=
  if output_mode = "Quiet" then " > /dev/null 2>&1" else ""

/-- The noisy patterns of `utils/helpers.py` `should_quiet_redirect`. -/
def noisyPatterns : List String := ["dnf update", "dnf upgrade", "reboot"]

/-- The supported `color_echo` colors of `utils/helpers.py`. -/
def supportedColors : List String := ["red", "green", "yellow", "blue"]

/-- Embedding of `utils/helpers.py` `should_quiet_redirect` (lines 55-76),
the version the current builder imports (`from utils import ...`):
`color_echo` calls with a supported color are never redirected, and neither
is any command containing a noisy pattern. -/
def should_quiet_redirect (command : String) : Bool :=
  let command_clean := pystrip command
  if strStarts command_clean "color_echo" &&
      supportedColors.any
        (fun color => strStarts command_clean ("color_echo \"" ++ color ++ "\"")) then
    false
  else
    !(noisyPatterns.any (fun pattern => pyIn pattern command))

/-- The no-redirect patterns of the legacy top-level `builder.py`
`should_quiet_redirect` (lines 70-80). -/
def legacyNoRedirect : List String :=
  ["log_message", "echo", "printf", "read", "prompt_", "EOF"]

/-- Embedding of the legacy top-level `builder.py` `should_quiet_redirect`:
`not any(cmd.startswith(pattern) or "EOF" in cmd for pattern in ...)`. -/
def legacy_should_quiet_redirect (cmd : String) : Bool :=
  !(legacyNoRedirect.any (fun pattern => strStarts cmd pattern || pyIn "EOF" cmd))

/-! ## Section renderers (`scripts/builder.py`) -/

/-- Embedding of `build_system_upgrade` (`scripts/builder.py` lines 32-51).
The selection is ignored by the source; the dnf statement gets the quiet
redirection suffix appended unconditionally in Quiet mode. -/
def build_system_upgrade (_opts : Options) (output_mode : String) : String :=
  joinLines
    ["color_echo \"blue\" \"Performing system upgrade... This may take a while...\"",
     "dnf upgrade -y" ++ quietRedirect output_mode,
     ""]

/-- The `set_hostname` placeholder substitution of `build_system_config`
(lines 96-99 and 105-108): the hostname defaults to `fedora-workstation`. -/
def hostnameSub (opts : Options) (option cmd : String) : String :=
  if option = "set_hostname" && pyIn "hostnamectl set-hostname" cmd then
    pyReplace cmd "\x7bhostname\x7d" (opts.hostname.getD "fedora-workstation")
  else cmd

/-- The per-statement verbosity transformation of `build_system_config`
(lines 100-101 and 109-110): `cmd += quiet_redirect` exactly when the mode is
Quiet and `should_quiet_redirect(cmd)` holds. -/
def applyQuiet (output_mode cmd : String) : String :=
  if output_mode = "Quiet" && should_quiet_redirect cmd then
    cmd ++ quietRedirect output_mode
  else cmd

/-- The lines `build_system_config` emits for one entry of the selection's
`system_config` map (lines 82-113): disabled or stale options are skipped, an
entry without a proper dict/`command` yields an error comment, otherwise the
description comment, the transformed statements and a blank line. -/
def configOptionLines (opts : Options) (mode : String)
    (sysconf : List (String × ConfigEntry)) (option : String) (enabled : Bool) :
    List String :=
  if enabled then
    match alookup option sysconf with
    | none => []
    | some .notDict => ["# Error: Invalid configuration for " ++ option]
    | some (.entry _ descr cmd) =>
      match cmd with
      | none => ["# Error: Invalid configuration for " ++ option]
      | some cmds =>
        ("# " ++ descr.getD ("Configure " ++ option)) ::
          (match cmds with
           | .str c => [applyQuiet mode (hostnameSub opts option c)]
           | .list l => l.map (fun c => applyQuiet mode (hostnameSub opts option c)))
          ++ [""]
  else []

/-- Embedding of `build_system_config` (`scripts/builder.py` lines 53-118).
Dependencies are resolved first; the catalog's and the selection's
`system_config` keys are checked as in the source (the second check is dead
code after `check_dependencies`).  The `try/except` of the source cannot fire
on well-typed data and has no counterpart here. -/
def build_system_config (nattd : Nattd) (opts : Options) (mode : String) : String :=
  let opts2 := check_dependencies opts
  match nattd.system_config with
  | none => "# Error: System configuration data not found\n"
  | some sysconf =>
    match opts2.system_config with
    | none => "# No system configuration options selected\n"
    | some scOpts =>
      joinLines (scOpts.flatMap (fun kv => configOptionLines opts2 mode sysconf kv.1 kv.2))

/-- Whether an additional-app selection value counts as selected
(`isinstance(app_data, dict) and app_data.get('selected', False)`). -/
def AppSel.isSelected : AppSel → Bool
  | .notDict => false
  | .sel s _ => s

/-- The selected-name filter of the essential-apps block (line 139-143):
a well-formed catalog app contributes its name when the selection marks it. -/
def essSelName (essOpts : List (String × Bool)) : EssApp → Option String
  | .bad => none
  | .app name => if (alookup name essOpts).getD false then some name else none

/-- The essential-apps block of `build_app_install` (lines 137-151): one
batched `dnf install` invocation over the selected app names. -/
def essentialLines (nattd : Nattd) (opts : Options) (mode : String) : List String :=
  match opts.essential_apps, nattd.essential_apps with
  | some essOpts, some (some apps) =>
    let selected := apps.filterMap (essSelName essOpts)
    if selected.isEmpty then []
    else
      ["# Install essential applications",
       "color_echo \"yellow\" \"Installing essential applications...\"",
       "dnf install -y " ++ String.intercalate " " selected ++ quietRedirect mode,
       "color_echo \"green\" \"Essential applications installed successfully.\"",
       ""]
  | _, _ => []

/-- The statement lines for one resolved command value in `build_app_install`
and `build_customization`: the quiet suffix is appended per statement when
`should_quiet_redirect` allows it. -/
def cmdLines (mode : String) : PyCmd → List String
  | .str c => [c ++ (if should_quiet_redirect c then quietRedirect mode else "")]
  | .list l => l.map (fun c => c ++ (if should_quiet_redirect c then quietRedirect mode else ""))

/-- The lines `build_app_install` emits for one selected additional app
(lines 167-204): stale ids and unknown installation types get warning
comments, an empty resolved command gets the missing-command warning, and a
successful install is bracketed by `color_echo` status lines (plus the Docker
note). -/
def additionalAppLines (mode : String) (catApps : List (String × AppEntry))
    (catSel : List (String × AppSel)) (app_id : String) : List String :=
  match alookup app_id catApps with
  | none => ["# Warning: App " ++ app_id ++ " not found in configuration"]
  | some app_data =>
    let app_name := app_data.name.getD app_id
    let intro := "color_echo \"yellow\" \"Installing " ++ app_name ++ "...\""
    match app_data.installation_types, alookup app_id catSel with
    | some instTypes, some (.sel _ (some install_type)) =>
      (match alookup install_type instTypes with
       | some it =>
         let commands := it.command.getD (.str "")
         if commands.falsy then
           [intro, "# Warning: No command found for " ++ app_name]
         else
           intro :: cmdLines mode commands
             ++ ["color_echo \"green\" \"" ++ app_name ++ " installed successfully.\""]
             ++ (if app_id = "install_docker" then
                  ["# Note: Docker group changes will take effect after logging out and back in"]
                 else [])
       | none =>
         [intro, "# Warning: Installation type " ++ install_type ++ " not found for " ++ app_name])
    | _, _ =>
      let commands := app_data.command.getD (.str "")
      if commands.falsy then
        [intro, "# Warning: No command found for " ++ app_name]
      else
        intro :: cmdLines mode commands
          ++ ["color_echo \"green\" \"" ++ app_name ++ " installed successfully.\""]
          ++ (if app_id = "install_docker" then
               ["# Note: Docker group changes will take effect after logging out and back in"]
              else [])

/-- The lines (or raised error) for one category of the selection's
`additional_apps` (lines 155-206).  A category whose catalog entry lacks the
`apps` key raises `KeyError('apps')` as soon as a selected app is processed;
the renderer's `except` turns that into the section error string. -/
def categoryLines (mode : String) (addCats : List (String × Category))
    (category : String) (catSel : List (String × AppSel)) :
    Except String (List String) :=
  match alookup category addCats with
  | none => .ok []
  | some catData =>
    let category_apps := catSel.filterMap
      (fun kv => if kv.2.isSelected then some kv.1 else none)
    if category_apps.isEmpty then .ok []
    else
      match catData.apps with
      | none => .error "'apps'"
      | some catApps =>
        .ok (("# Install " ++ catData.name.getD category ++ " applications") ::
          category_apps.flatMap (additionalAppLines mode catApps catSel) ++ [""])

/-- Folds `categoryLines` over the selection's categories, propagating a
raised error exactly as the Python `for` loop inside `try` does. -/
def additionalCatsLines (mode : String) (addCats : List (String × Category)) :
    List (String × List (String × AppSel)) → Except String (List String)
  | [] => .ok []
  | (category, catSel) :: rest =>
    match categoryLines mode addCats category catSel with
    | .error e => .error e
    | .ok l =>
      match additionalCatsLines mode addCats rest with
      | .error e => .error e
      | .ok r => .ok (l ++ r)

/-- Embedding of `build_app_install` (`scripts/builder.py` lines 120-211). -/
def build_app_install (nattd : Nattd) (opts : Options) (mode : String) : String :=
  let ess := essentialLines nattd opts mode
  let addl : Except String (List String) :=
    match opts.additional_apps, nattd.additional_apps with
    | some addOpts, some addCats => additionalCatsLines mode addCats addOpts
    | _, _ => .ok []
  match addl with
  | .ok lines => joinLines (ess ++ lines)
  | .error e => "# Error building application installation: " ++ e ++ "\n"

/-- The lines `build_customization` emits for one entry of the selection's
`customization` map (lines 238-285).  A selected dict value renders through
its installation type (nothing at all when either side lacks the type
information); any other truthy value renders the plain `command` when the
catalog has one. -/
def custAppLines (mode : String) (custApps : List (String × AppEntry))
    (app_id : String) (app_value : CustSel) : List String :=
  match alookup app_id custApps with
  | none => []
  | some app_data =>
    let plain : List String :=
      match app_data.command with
      | none => []
      | some commands =>
        let app_name := app_data.name.getD app_id
        ("# " ++ app_data.description.getD ("Installing " ++ app_name)) ::
          ("color_echo \"yellow\" \"Installing " ++ app_name ++ "...\"") ::
          cmdLines mode commands
          ++ ["color_echo \"green\" \"" ++ app_name ++ " installed successfully.\"", ""]
    match app_value with
    | .d true instType =>
      (match instType, app_data.installation_types with
       | some install_type, some instTypes =>
         (match alookup install_type instTypes with
          | none =>
            ["# Warning: Installation type " ++ install_type ++ " not found for "
              ++ app_data.name.getD app_id]
          | some it =>
            let commands := it.command.getD (.str "")
            let app_name := app_data.name.getD app_id
            ("# " ++ app_data.description.getD ("Installing " ++ app_name)
                ++ " (" ++ install_type ++ ")") ::
              ("color_echo \"yellow\" \"Installing " ++ app_name
                ++ " (" ++ install_type ++ ")...\"") ::
              cmdLines mode commands
              ++ ["color_echo \"green\" \"" ++ app_name ++ " (" ++ install_type
                    ++ ") installed successfully.\"", ""])
       | _, _ => [])
    | .d false _ => plain
    | .b true => plain
    | .b false => []

/-- Embedding of `build_customization` (`scripts/builder.py` lines 213-290). -/
def build_customization (nattd : Nattd) (opts : Options) (mode : String) : String :=
  match nattd.customization with
  | none => "# No customization options available\n"
  | some none => "# No customization options available\n"
  | some (some custApps) =>
    match opts.customization with
    | none => "# No customization options selected\n"
    | some custOpts =>
      joinLines (custOpts.flatMap (fun kv => custAppLines mode custApps kv.1 kv.2))

/-- Embedding of `build_custom_script` (`scripts/builder.py` lines 292-306):
the output mode is ignored, the custom text is stripped, and a non-empty
result is prefixed by one comment line. -/
def build_custom_script (opts : Options) (_output_mode : String) : String :=
  let custom_script := pystrip (opts.custom_script.getD "")
  if custom_script = "" then ""
  else "# Custom user-defined commands\n" ++ custom_script ++ "\n"

/-! ## Assembler (`build_script` / `build_full_script`) -/

/-- The five named section parts, in the dict order of the source
(lines 320-326 and 355-361). -/
def scriptParts (nattd : Nattd) (opts : Options) (mode : String) :
    List (String × String) :=
  [("system_upgrade", build_system_upgrade opts mode),
   ("system_config", build_system_config nattd opts mode),
   ("app_install", build_app_install nattd opts mode),
   ("customization", build_customization nattd opts mode),
   ("custom_script", build_custom_script opts mode)]

/-- The preview header placeholder line of `build_script` (line 328). -/
def previewHeader : String := "(...)  # Script header and initial setup\n\n"

/-- The preview footer placeholder line of `build_script` (line 335). -/
def previewFooter : String := "(...)  # Script footer"

/-- Embedding of `build_script` (`scripts/builder.py` lines 308-340): each
non-blank section is appended under a title comment between the header and
footer placeholders.  The `except` branch cannot fire on well-typed data. -/
def build_script (nattd : Nattd) (opts : Options) (mode : String) : String :=
  (scriptParts nattd opts mode).foldl
    (fun acc pc =>
      if pc.2 ≠ "" && pystrip pc.2 ≠ "" then
        acc ++ "# " ++ pyTitle (pyReplace pc.1 "_" " ") ++ "\n" ++ pc.2 ++ "\n\n"
      else acc)
    previewHeader
  ++ previewFooter

/-- Embedding of `build_full_script` (`scripts/builder.py` lines 342-382):
each `{{placeholder}}` slot is substituted in dict order, then every
`{hostname}` token is replaced by the selection's hostname or the fixed
default `fedora-workstation`. -/
def build_full_script (template : String) (nattd : Nattd) (opts : Options)
    (mode : String) : String :=
  let full := (scriptParts nattd opts mode).foldl
    (fun acc pc => pyReplace acc ("\x7b\x7b" ++ pc.1 ++ "\x7d\x7d") pc.2) template
  pyReplace full "\x7bhostname\x7d" (opts.hostname.getD "fedora-workstation")

/-! ## Explicit exemption predicates

Spelled out independently of `should_quiet_redirect`, to state which
statements the verbosity policy actually leaves untouched. -/

/-- A statement the current code (`utils/helpers.py`) exempts from quiet
redirection: it contains one of the noisy patterns, or its stripped form is a
`color_echo` call with one of the four supported colors. -/
def liveExempt (c : String) : Bool :=
  pyIn "dnf update" c || pyIn "dnf upgrade" c || pyIn "reboot" c ||
  strStarts (pystrip c) "color_echo \"red\"" ||
  strStarts (pystrip c) "color_echo \"green\"" ||
  strStarts (pystrip c) "color_echo \"yellow\"" ||
  strStarts (pystrip c) "color_echo \"blue\""

/-- A statement the claim (and the legacy top-level `builder.py`) calls
exempt: a status/log helper call, `echo`, `printf`, `read`, a prompt-prefixed
call, or a heredoc boundary. -/
def claimedExempt (c : String) : Bool :=
  strStarts c "log_message" || strStarts c "echo" || strStarts c "printf" ||
  strStarts c "read" || strStarts c "prompt_" || pyIn "EOF" c

/-! ## Heap model of the resolver

`check_dependencies` promises not to mutate its argument; the legacy
top-level `builder.py` version writes into it.  To state this, Python dicts
become heap cells: a `Store` maps addresses to dict contents, values are
booleans, strings, or references to further dicts.  `none` as a result models
a raised exception. -/

/-- A Python value stored in a dict: a boolean, a string, or a reference to
another dict. -/
inductive PVal where
  | b (v : Bool)
  | s (v : String)
  | r (a : Nat)
deriving DecidableEq

/-- Contents of one heap-allocated dict. -/
abbrev PDict := List (String × PVal)

/-- The heap: allocated dicts at addresses below `next`. -/
structure Store where
  heap : List (Nat × PDict)
  next : Nat
deriving DecidableEq

/-- Read the dict at address `a`. -/
def heapGet (σ : Store) (a : Nat) : Option PDict := alookup a σ.heap

/-- Allocate a fresh dict, returning its address. -/
def alloc (σ : Store) (d : PDict) : Store × Nat :=
  ({ heap := σ.heap ++ [(σ.next, d)], next := σ.next + 1 }, σ.next)

/-- Overwrite the dict at address `a`. -/
def heapSet (σ : Store) (a : Nat) (d : PDict) : Store :=
  { σ with heap := dictSet a d σ.heap }

/-- The dict comprehension of `check_dependencies` (line 16):
`{k: v.copy() if isinstance(v, dict) else v for k, v in options.items()}` —
every dict-valued entry is shallow-copied into a fresh cell, other values are
shared. -/
def copyVals (σ : Store) : PDict → Store × PDict
  | [] => (σ, [])
  | (k, v) :: t =>
    match v with
    | .r b0 =>
      let p := alloc σ ((heapGet σ b0).getD [])
      let q := copyVals p.1 t
      (q.1, (k, .r p.2) :: q.2)
    | _ =>
      let q := copyVals σ t
      (q.1, (k, v) :: q.2)

/-- The codec test of `check_dependencies` (lines 23-25) on a heap dict:
some codec option is bound to `True`. -/
def codecOn (sc : PDict) : Bool :=
  codecOptions.any (fun o =>
    match alookup o sc with
    | some (.b true) => true
    | _ => false)

/-- Heap-level embedding of `check_dependencies` (`scripts/builder.py`
lines 5-30): copy the options dict (shallow-copying dict values), create
`system_config` when absent, and write `enable_rpmfusion` into the copy when
a codec option is on.  `none` models the `TypeError` Python raises when
`system_config` is bound to a non-dict. -/
def check_dependencies_heap (σ : Store) (a : Nat) : Option (Store × Nat) :=
  let d := (heapGet σ a).getD []
  let p1 := copyVals σ d
  let p2 : Store × PDict :=
    match alookup "system_config" p1.2 with
    | none =>
      let pe := alloc p1.1 []
      (pe.1, dictSet "system_config" (.r pe.2) p1.2)
    | some _ => p1
  let p3 := alloc p2.1 p2.2
  match alookup "system_config" p2.2 with
  | some (.r sa) =>
    let sc := (heapGet p3.1 sa).getD []
    if codecOn sc then
      some (heapSet p3.1 sa (dictSet "enable_rpmfusion" (.b true) sc), p3.2)
    else some (p3.1, p3.2)
  | some _ => none
  | none => none

/-- Heap-level embedding of the legacy top-level `builder.py`
`check_dependencies` (lines 83-95): it writes `enable_rpmfusion` directly
into the caller's `system_config` dict and returns the argument itself.
`none` models the exception raised when `system_config` is absent or not a
dict. -/
def legacy_check_dependencies_heap (σ : Store) (a : Nat) : Option (Store × Nat) :=
  match alookup "system_config" ((heapGet σ a).getD []) with
  | some (.r sa) =>
    let sc := (heapGet σ sa).getD []
    if codecOn sc then
      some (heapSet σ sa (dictSet "enable_rpmfusion" (.b true) sc), a)
    else some (σ, a)
  | _ => none

/-- Store well-formedness: every allocated address is below `next`. -/
def wfStore (σ : Store) : Prop := ∀ kv ∈ σ.heap, kv.1 < σ.next

/-! ## Notification pass

`utils/state.py` (`AppState.update_options`) calls
`process_all_dependencies` from `scripts.builder`, but that function's
definition is not part of the sources; everything below `dependencyMsg` is
modelled from the spec. -/

/-- The notification text mandated by the spec. -/
def dependencyMsg (depName appName : String) : String :=
  depName ++ " has been automatically enabled because it's required for "
    ++ appName ++ ". This provides necessary packages and codecs."

/-- Display name of a system-configuration option id, falling back to the
id itself. -/
def configName (nattd : Nattd) (dep : String) : String :=
  match nattd.system_config with
  | some sysconf =>
    match alookup dep sysconf with
    | some (.entry (some n) _ _) => n
    | _ => dep
  | none => dep

/-- Modelled from the spec: the dependency ids contributed by one
additional-app selection — the chosen installation method's `dependencies`
list when the app is selected and a method is chosen, nothing otherwise. -/
def appDependencies (entry : AppEntry) (v : AppSel) : List String :=
  match v with
  | .sel true (some t) =>
    (match entry.installation_types with
     | some its =>
       (match alookup t its with
        | some it => it.dependencies
        | none => [])
     | none => [])
  | _ => []

/-- Modelled from the spec: processing one dependency id — a dependency id
equal to the repository option is force-enabled, and a notification is
appended only when it was not already enabled at this point of the pass. -/
def depStep (nattd : Nattd) (appName : String)
    (st : List (String × Bool) × List String) (dep : String) :
    List (String × Bool) × List String :=
  if dep = "enable_rpmfusion" then
    let already := (alookup dep st.1).getD false
    (dictSet dep true st.1,
     if already then st.2
     else st.2 ++ [dependencyMsg (configName nattd dep) appName])
  else st

/-- Modelled from the spec: processing one catalog app against the
category's selection map. -/
def appStep (nattd : Nattd) (catSel : List (String × AppSel))
    (st : List (String × Bool) × List String) (ae : String × AppEntry) :
    List (String × Bool) × List String :=
  (appDependencies ae.2 ((alookup ae.1 catSel).getD .notDict)).foldl
    (depStep nattd (ae.2.name.getD ae.1)) st

/-- Modelled from the spec: processing one catalog category in catalog
iteration order. -/
def catStep (nattd : Nattd) (opts : Options)
    (st : List (String × Bool) × List String) (cat : String × Category) :
    List (String × Bool) × List String :=
  let catSel := (alookup cat.1 (opts.additional_apps.getD [])).getD []
  (cat.2.apps.getD []).foldl (appStep nattd catSel) st

/-- Modelled from the spec: `process_all_dependencies` (called from
`utils/state.py`, not present under src/) — the system-level codec rule
first (`check_dependencies`, no notification), then the per-app
installation-type dependencies in catalog iteration order, returning the
resolved Selection and the notification list. -/
def process_all_dependencies (nattd : Nattd) (opts : Options) :
    Options × List String :=
  let o1 := check_dependencies opts
  let st := (nattd.additional_apps.getD []).foldl (catStep nattd opts)
    (o1.system_config.getD [], [])
  ({ o1 with system_config := some st.1 }, st.2)

/-- The display names, in catalog iteration order, of the apps whose chosen
installation method depends on the repository option. -/
def triggerNames (nattd : Nattd) (opts : Options) : List String :=
  (nattd.additional_apps.getD []).flatMap (fun cat =>
    let catSel := (alookup cat.1 (opts.additional_apps.getD [])).getD []
    (cat.2.apps.getD []).filterMap (fun ae =>
      if (appDependencies ae.2 ((alookup ae.1 catSel).getD .notDict)).any
          (fun d => d == "enable_rpmfusion") then
        some (ae.2.name.getD ae.1)
      else none))

/-- The display names of the apps in `apps` (one category) whose selection
triggers the repository dependency, in order. -/
def appsTriggerNames (catSel : List (String × AppSel))
    (apps : List (String × AppEntry)) : List String :=
  apps.filterMap (fun ae =>
    if (appDependencies ae.2 ((alookup ae.1 catSel).getD .notDict)).any
        (fun d => d == "enable_rpmfusion") then
      some (ae.2.name.getD ae.1)
    else none)

/-- Concrete store for the mutation counterexample: address 0 holds the
options dict, whose `system_config` points at address 1 with the multimedia
codec option enabled. -/
def sigma0 : Store :=
  ⟨[(0, [("system_config", PVal.r 1)]),
    (1, [("install_multimedia_codecs", PVal.b true)])], 2⟩

/-- The opening brace character (written via its code point). -/
def openBrace : Char := Char.ofNat 123

/-- The closing brace character (written via its code point). -/
def closeBrace : Char := Char.ofNat 125

/-- A catalog whose single additional app (`install_docker`, display name
`Docker`) has neither a `command` key nor `installation_types`: the malformed
single catalog entry of the total-function guarantee. -/
def nattdMissingCmd : Nattd :=
  ⟨some [], some (some []),
   some [("Sys", ⟨some "System",
     some [("install_docker", ⟨some "Docker", none, none, none⟩)]⟩)],
   some (some [])⟩

/-- A Selection that selects exactly the malformed app of
`nattdMissingCmd`. -/
def optsMissingCmd : Options :=
  ⟨some [], some [],
   some [("Sys", [("install_docker", AppSel.sel true none)])],
   some [], none, none⟩

/-! ### Basic lemmas about the string primitives -/

theorem isPre_iff (p s : List Char) : isPre p s = true ↔ ∃ t, s = p ++ t := by
  induction p generalizing s with
  | nil => simp [isPre]
  | cons a as ih =>
    cases s with
    | nil => simp [isPre]
    | cons b bs =>
      simp only [isPre, Bool.and_eq_true, beq_iff_eq, ih, List.cons_append]
      constructor
      · rintro ⟨rfl, t, rfl⟩; exact ⟨t, rfl⟩
      · rintro ⟨t, h⟩
        injection h with h1 h2
        exact ⟨h1.symm, t, h2⟩

theorem subList_iff (p s : List Char) : subList p s = true ↔ occursIn p s := by
  induction s with
  | nil =>
    simp only [subList, List.isEmpty_iff, occursIn]
    constructor
    · rintro rfl; exact ⟨[], [], rfl⟩
    · rintro ⟨x, y, h⟩
      rcases List.append_eq_nil.mp h.symm with ⟨h1, h2⟩
      exact (List.append_eq_nil.mp h1).2
  | cons c cs ih =>
    simp only [subList, Bool.or_eq_true, isPre_iff, ih, occursIn]
    constructor
    · rintro (⟨t, ht⟩ | ⟨x, y, hxy⟩)
      · exact ⟨[], t, by simp [ht]⟩
      · exact ⟨c :: x, y, by simp [hxy]⟩
    · rintro ⟨x, y, hxy⟩
      cases x with
      | nil => exact Or.inl ⟨y, by simpa using hxy⟩
      | cons d ds =>
        injection hxy with h1 h2
        exact Or.inr ⟨ds, y, h2⟩

theorem occursIn_of_mem_left {p x s : List Char} (h : occursIn p s) :
    occursIn p (x ++ s) := by
  rcases h with ⟨a, b, rfl⟩
  exact ⟨x ++ a, b, by simp⟩

theorem occursIn_of_mem_right {p s y : List Char} (h : occursIn p s) :
    occursIn p (s ++ y) := by
  rcases h with ⟨a, b, rfl⟩
  exact ⟨a, b ++ y, by simp⟩

theorem occursIn_cons {p s : List Char} (c : Char) (h : occursIn p s) :
    occursIn p (c :: s) := by
  rcases h with ⟨a, b, rfl⟩
  exact ⟨c :: a, b, rfl⟩

theorem occursIn_refl (p : List Char) : occursIn p p := ⟨[], [], by simp⟩

theorem mem_of_occursIn {p s : List Char} (h : occursIn p s) {c : Char}
    (hc : c ∈ p) : c ∈ s := by
  rcases h with ⟨x, y, rfl⟩
  exact List.mem_append.mpr (Or.inl (List.mem_append.mpr (Or.inr hc)))

theorem not_occursIn_of_mem_not_mem {p s : List Char} {c : Char}
    (hc : c ∈ p) (hs : c ∉ s) : ¬ occursIn p s :=
  fun h => hs (mem_of_occursIn h hc)

/-! ### Dict lemmas -/

theorem alookup_dictSet_self {κ α : Type} [DecidableEq κ] (k : κ) (v : α)
    (l : List (κ × α)) : alookup k (dictSet k v l) = some v := by
  induction l with
  | nil => simp [dictSet, alookup]
  | cons kv t ih =>
    by_cases h : kv.1 = k
    · obtain ⟨k2, v2⟩ := kv
      simp only at h
      simp [dictSet, alookup, h]
    · obtain ⟨k2, v2⟩ := kv
      simp only at h
      simp [dictSet, alookup, h, ih]

theorem alookup_dictSet_ne {κ α : Type} [DecidableEq κ] {k k2 : κ} (v : α)
    (l : List (κ × α)) (h : k2 ≠ k) :
    alookup k2 (dictSet k v l) = alookup k2 l := by
  induction l with
  | nil => simp [dictSet, alookup, Ne.symm h]
  | cons kv t ih =>
    obtain ⟨k3, v3⟩ := kv
    by_cases h3 : k3 = k
    · subst h3
      simp [dictSet, alookup, Ne.symm h]
    · simp [dictSet, alookup, h3, ih]

theorem dictSet_self {κ α : Type} [DecidableEq κ] {k : κ} {v : α}
    {l : List (κ × α)} (h : alookup k l = some v) : dictSet k v l = l := by
  induction l with
  | nil => simp [alookup] at h
  | cons kv t ih =>
    obtain ⟨k2, v2⟩ := kv
    by_cases h2 : k2 = k
    · subst h2
      have h5 : v2 = v := by simpa [alookup] using h
      simp [dictSet, h5]
    · simp only [alookup, if_neg h2] at h
      simp [dictSet, h2, ih h]

theorem dictSet_dictSet {κ α : Type} [DecidableEq κ] (k : κ) (v : α)
    (l : List (κ × α)) : dictSet k v (dictSet k v l) = dictSet k v l :=
  dictSet_self (alookup_dictSet_self k v l)

theorem alookup_all_false {k : String} {l : List (String × Bool)}
    (h : ∀ kv ∈ l, kv.2 = false) : (alookup k l).getD false = false := by
  induction l with
  | nil => simp [alookup]
  | cons kv t ih =>
    obtain ⟨k2, v2⟩ := kv
    by_cases h2 : k2 = k
    · have := h (k2, v2) (by simp)
      simp only at this
      simp [alookup, h2, this]
    · simp only [alookup, if_neg h2]
      exact ih (fun kv hkv => h kv (List.mem_cons_of_mem _ hkv))

/-! ### Equations for `replaceAll` -/

theorem replaceAllGo_congr (p r : List Char) :
    ∀ f1 f2 (s : List Char), s.length ≤ f1 → s.length ≤ f2 →
      replaceAllGo p r f1 s = replaceAllGo p r f2 s := by
  intro f1
  induction f1 with
  | zero =>
    intro f2 s hs1 _
    have : s = [] := List.length_eq_zero.mp (Nat.le_zero.mp hs1)
    subst this
    cases f2 <;> rfl
  | succ f ih =>
    intro f2 s hs1 hs2
    cases s with
    | nil => cases f2 <;> rfl
    | cons c cs =>
      cases f2 with
      | zero => simp at hs2
      | succ g =>
        simp only [List.length_cons] at hs1 hs2
        simp only [replaceAllGo]
        cases hcond : (!p.isEmpty && isPre p (c :: cs)) with
        | true =>
          simp only [if_true]
          rw [ih g (cs.drop (p.length - 1)) (by
            have := List.length_drop (p.length - 1) cs
            omega) (by
            have := List.length_drop (p.length - 1) cs
            omega)]
        | false =>
          simp only [Bool.false_eq_true, if_false]
          rw [ih g cs (by omega) (by omega)]

theorem replaceAll_nil (p r : List Char) : replaceAll p r [] = [] := rfl

theorem replaceAll_cons_pos {p : List Char} (r : List Char) {c : Char}
    {cs : List Char} (hp : p ≠ []) (hpre : isPre p (c :: cs) = true) :
    replaceAll p r (c :: cs) = r ++ replaceAll p r (cs.drop (p.length - 1)) := by
  have hne : p.isEmpty = false := by
    cases p with
    | nil => exact absurd rfl hp
    | cons a as => rfl
  unfold replaceAll
  simp only [List.length_cons, replaceAllGo, hne, hpre, Bool.not_false,
    Bool.and_self, if_true]
  rw [replaceAllGo_congr p r cs.length (cs.drop (p.length - 1)).length
    (cs.drop (p.length - 1)) (by simp) (Nat.le_refl _)]

theorem replaceAll_cons_neg {p : List Char} (r : List Char) {c : Char}
    {cs : List Char} (hpre : isPre p (c :: cs) = false) :
    replaceAll p r (c :: cs) = c :: replaceAll p r cs := by
  unfold replaceAll
  simp only [List.length_cons, replaceAllGo, hpre, Bool.and_false,
    Bool.false_eq_true, if_false]

theorem replaceAll_append {p : List Char} (r : List Char) (t : List Char)
    (hp : p ≠ []) : replaceAll p r (p ++ t) = r ++ replaceAll p r t := by
  cases p with
  | nil => exact absurd rfl hp
  | cons a as =>
    have hpre : isPre (a :: as) (a :: (as ++ t)) = true :=
      (isPre_iff _ _).mpr ⟨t, by simp⟩
    rw [List.cons_append, replaceAll_cons_pos r hp hpre, List.length_cons,
      Nat.add_sub_cancel, List.drop_left]

theorem replaceAll_not_occurs {p r : List Char} {s : List Char}
    (h : ¬ occursIn p s) : replaceAll p r s = s := by
  induction s with
  | nil => exact replaceAll_nil p r
  | cons c cs ih =>
    have hpre : isPre p (c :: cs) = false := by
      cases hq : isPre p (c :: cs) with
      | false => rfl
      | true =>
        rcases (isPre_iff p (c :: cs)).mp hq with ⟨t, ht⟩
        exact absurd ⟨[], t, by simp [ht]⟩ h
    rw [replaceAll_cons_neg r hpre]
    rw [ih (fun hc => h (occursIn_cons c hc))]

/-! ### Strip lemmas -/

theorem mem_dropWhile_of_not_ws {c : Char} {l : List Char}
    (hc : wsChar c = false) (hm : c ∈ l) : c ∈ l.dropWhile wsChar := by
  induction l with
  | nil => cases hm
  | cons a t ih =>
    by_cases ha : wsChar a = true
    · rw [List.dropWhile_cons_of_pos ha]
      rcases List.mem_cons.mp hm with rfl | hmt
      · rw [hc] at ha; cases ha
      · exact ih hmt
    · rw [List.dropWhile_cons_of_neg ha]
      exact hm

theorem mem_stripChars_of_not_ws {c : Char} {l : List Char}
    (hc : wsChar c = false) (hm : c ∈ l) : c ∈ stripChars l := by
  unfold stripChars
  rw [List.mem_reverse]
  exact mem_dropWhile_of_not_ws hc (by
    rw [List.mem_reverse]
    exact mem_dropWhile_of_not_ws hc hm)

theorem pystrip_ne_empty {s : String} {c : Char} (hc : wsChar c = false)
    (hm : c ∈ s.data) : pystrip s ≠ "" := by
  intro h
  have : (pystrip s).data = [] := by rw [h]
  rw [pystrip] at this
  simp only at this
  exact absurd (this ▸ mem_stripChars_of_not_ws hc hm) (List.not_mem_nil c)

theorem stripChars_infix (l : List Char) :
    ∃ x y, (∀ c ∈ x, wsChar c = true) ∧ (∀ c ∈ y, wsChar c = true) ∧
      l = x ++ stripChars l ++ y := by
  refine ⟨l.takeWhile wsChar,
    ((l.dropWhile wsChar).reverse.takeWhile wsChar).reverse, ?_, ?_, ?_⟩
  · exact fun c hc => List.mem_takeWhile_imp hc
  · intro c hc
    exact List.mem_takeWhile_imp (List.mem_reverse.mp hc)
  · have h3 : l.dropWhile wsChar =
        stripChars l ++ ((l.dropWhile wsChar).reverse.takeWhile wsChar).reverse := by
      unfold stripChars
      calc l.dropWhile wsChar = (l.dropWhile wsChar).reverse.reverse := by
            rw [List.reverse_reverse]
        _ = ((l.dropWhile wsChar).reverse.takeWhile wsChar
              ++ (l.dropWhile wsChar).reverse.dropWhile wsChar).reverse := by
            rw [List.takeWhile_append_dropWhile]
        _ = ((l.dropWhile wsChar).reverse.dropWhile wsChar).reverse
              ++ ((l.dropWhile wsChar).reverse.takeWhile wsChar).reverse := by
            rw [List.reverse_append]
    calc l = l.takeWhile wsChar ++ l.dropWhile wsChar :=
          (List.takeWhile_append_dropWhile (p := wsChar) (l := l)).symm
      _ = l.takeWhile wsChar ++ (stripChars l
            ++ ((l.dropWhile wsChar).reverse.takeWhile wsChar).reverse) :=
          congrArg (fun z => l.takeWhile wsChar ++ z) h3
      _ = l.takeWhile wsChar ++ stripChars l
            ++ ((l.dropWhile wsChar).reverse.takeWhile wsChar).reverse :=
          (List.append_assoc _ _ _).symm

/-! ## C1: codec options force the third-party repository -/

/-- Claim C1: for every Selection in which at least one codec option
(`install_multimedia_codecs`, `install_intel_codecs`, `install_amd_codecs`)
is enabled, `check_dependencies` returns a Selection whose `system_config`
map binds `enable_rpmfusion` to `true`, whatever its value was before. -/
theorem codec_forces_rpmfusion (opts : Options)
    (h : codecOptions.any
      (fun o => (alookup o (opts.system_config.getD [])).getD false) = true) :
    alookup "enable_rpmfusion"
      ((check_dependencies opts).system_config.getD []) = some true := by
  unfold check_dependencies
  simp only [h, if_true, Option.getD_some]
  exact alookup_dictSet_self _ _ _

/-- Witness for C1 at a concrete Selection: multimedia codecs enabled,
repository option initially absent. -/
theorem codec_forces_rpmfusion_witness :
    codecOptions.any
      (fun o => (alookup o ((Options.mk
        (some [("install_multimedia_codecs", true)]) none none none none
        none).system_config.getD [])).getD false) = true ∧
    alookup "enable_rpmfusion"
      ((check_dependencies (Options.mk
        (some [("install_multimedia_codecs", true)]) none none none none
        none)).system_config.getD []) = some true :=
  ⟨by decide, codec_forces_rpmfusion _ (by decide)⟩

/-! ## C4: the system-upgrade statement is silenced in Quiet mode -/

/-- Claim C4 (code bug): the claim (and `utils/helpers.py`, whose
`should_quiet_redirect` returns `false` for the dnf upgrade statement,
marking it never-to-redirect) says the system upgrade is never silenced, but
`build_system_upgrade` appends the discard redirection to `dnf upgrade -y`
whenever the mode is Quiet, for every Selection. -/
theorem system_upgrade_silenced_in_quiet (opts : Options) :
    build_system_upgrade opts "Quiet" =
      "color_echo \"blue\" \"Performing system upgrade... This may take a while...\"\ndnf upgrade -y > /dev/null 2>&1\n"
    ∧ should_quiet_redirect "dnf upgrade -y" = false
    ∧ pyIn " > /dev/null 2>&1" (build_system_upgrade opts "Quiet") = true := by
  have h1 : build_system_upgrade opts "Quiet" =
      "color_echo \"blue\" \"Performing system upgrade... This may take a while...\"\ndnf upgrade -y > /dev/null 2>&1\n" := rfl
  exact ⟨h1, by decide, by rw [h1]; decide⟩

/-! ## C10: the custom-script section -/

/-- Claim C10: `build_custom_script` ignores the verbosity mode; it returns
the empty string when the custom text strips to nothing and otherwise one
comment line, the stripped text and a trailing newline; the stripped text is
the original custom text minus whitespace padding (so no redirection is ever
appended to any custom line). -/
theorem custom_script_spec (opts : Options) (mode mode2 : String) :
    build_custom_script opts mode = build_custom_script opts mode2
    ∧ build_custom_script opts mode =
        (if pystrip (opts.custom_script.getD "") = "" then ""
         else "# Custom user-defined commands\n"
           ++ pystrip (opts.custom_script.getD "") ++ "\n")
    ∧ ∃ x y, (∀ c ∈ x, wsChar c = true) ∧ (∀ c ∈ y, wsChar c = true) ∧
        (opts.custom_script.getD "").data =
          x ++ (pystrip (opts.custom_script.getD "")).data ++ y := by
  refine ⟨rfl, rfl, ?_⟩
  obtain ⟨x, y, hx, hy, hxy⟩ := stripChars_infix (opts.custom_script.getD "").data
  exact ⟨x, y, hx, hy, hxy⟩

/-! ### Prefix and substring helper lemmas -/

theorem isPre_of_append (p q s : List Char) (h : isPre (p ++ q) s = true) :
    isPre p s = true := by
  rcases (isPre_iff _ _).mp h with ⟨t, rfl⟩
  exact (isPre_iff _ _).mpr ⟨q ++ t, by simp⟩

theorem strStarts_mono (s p q : String) (h : strStarts s (p ++ q) = true) :
    strStarts s p = true := by
  unfold strStarts at *
  rw [String.data_append] at h
  exact isPre_of_append _ _ _ h

theorem pyIn_of_strStarts (s p : String) (h : strStarts s p = true) :
    pyIn p s = true := by
  unfold strStarts at h
  rcases (isPre_iff _ _).mp h with ⟨t, ht⟩
  exact (subList_iff _ _).mpr ⟨[], t, by simp [ht]⟩

theorem getD_false_eq_true {o : Option Bool} (h : o.getD false = true) :
    o = some true := by
  cases o with
  | none => simp at h
  | some b => simpa using h

/-! ### Claim C3: which statements escape quiet redirection -/

/-- Claim C3 counterexample: the claim calls `echo` statements exempt and
says they render unchanged in Quiet mode, but `should_quiet_redirect` (the
version in `utils/helpers.py`, used by the section renderers) returns `true`
on `"echo hello"`, so the rendered Quiet line gets the discard suffix even
though `"echo hello"` is one of the claim's exempt statements. -/
theorem quiet_exemption_counterexample :
    should_quiet_redirect "echo hello" = true
    ∧ applyQuiet "Quiet" "echo hello" = "echo hello > /dev/null 2>&1"
    ∧ claimedExempt "echo hello" = true := by
  refine ⟨by decide, ?_, by decide⟩
  decide

/-- Claim C3 amended: in Quiet mode a statement is rendered as itself plus
`" > /dev/null 2>&1"` exactly when it is not exempt, and unchanged otherwise
(in Verbose mode always unchanged); but the exempt statements of the current
code are those containing `dnf update`/`dnf upgrade`/`reboot` or starting
(after stripping) with `color_echo` and a supported color — not the
status/echo/printf/read/prompt/heredoc list of the claim, which matches only
the legacy top-level `builder.py` version. -/
theorem quiet_exemption_amended (c mode : String) :
    should_quiet_redirect c = !liveExempt c
    ∧ applyQuiet mode c =
        (if mode = "Quiet" && !liveExempt c then c ++ " > /dev/null 2>&1" else c)
    ∧ legacy_should_quiet_redirect c = !claimedExempt c := by
  have e1 : ("color_echo \"red\"" : String) = "color_echo" ++ " \"red\"" := by decide
  have e2 : ("color_echo \"green\"" : String) = "color_echo" ++ " \"green\"" := by decide
  have e3 : ("color_echo \"yellow\"" : String) = "color_echo" ++ " \"yellow\"" := by decide
  have e4 : ("color_echo \"blue\"" : String) = "color_echo" ++ " \"blue\"" := by decide
  have h1 : strStarts (pystrip c) "color_echo \"red\"" = true →
      strStarts (pystrip c) "color_echo" = true := by
    rw [e1]; exact strStarts_mono _ _ _
  have h2 : strStarts (pystrip c) "color_echo \"green\"" = true →
      strStarts (pystrip c) "color_echo" = true := by
    rw [e2]; exact strStarts_mono _ _ _
  have h3 : strStarts (pystrip c) "color_echo \"yellow\"" = true →
      strStarts (pystrip c) "color_echo" = true := by
    rw [e3]; exact strStarts_mono _ _ _
  have h4 : strStarts (pystrip c) "color_echo \"blue\"" = true →
      strStarts (pystrip c) "color_echo" = true := by
    rw [e4]; exact strStarts_mono _ _ _
  have hmain : should_quiet_redirect c = !liveExempt c := by
    unfold should_quiet_redirect liveExempt
    simp only [supportedColors, noisyPatterns, List.any_cons, List.any_nil,
      Bool.or_false]
    cases hb1 : strStarts (pystrip c) "color_echo \"red\"" <;>
      cases hb2 : strStarts (pystrip c) "color_echo \"green\"" <;>
        cases hb3 : strStarts (pystrip c) "color_echo \"yellow\"" <;>
          cases hb4 : strStarts (pystrip c) "color_echo \"blue\"" <;>
            simp_all [Bool.and_assoc]
  refine ⟨hmain, ?_, ?_⟩
  · unfold applyQuiet quietRedirect
    by_cases hm : mode = "Quiet"
    · simp [hm, hmain]
    · simp [hm]
  · have hEOF : strStarts c "EOF" = true → pyIn "EOF" c = true :=
      pyIn_of_strStarts c "EOF"
    unfold legacy_should_quiet_redirect claimedExempt
    simp only [legacyNoRedirect, List.any_cons, List.any_nil, Bool.or_false]
    cases hE : pyIn "EOF" c
    · have hSE : strStarts c "EOF" = false := by
        cases hq : strStarts c "EOF" with
        | false => rfl
        | true => rw [hEOF hq] at hE; cases hE
      simp [hE, hSE, Bool.and_assoc]
    · simp [hE]

/-! ### Codec lookups are untouched by enabling the repository option -/

theorem codec_any_dictSet (sc : List (String × Bool)) :
    codecOptions.any
      (fun o => (alookup o (dictSet "enable_rpmfusion" true sc)).getD false) =
    codecOptions.any (fun o => (alookup o sc).getD false) := by
  simp only [codecOptions, List.any_cons, List.any_nil]
  rw [alookup_dictSet_ne true sc (by decide),
    alookup_dictSet_ne true sc (by decide),
    alookup_dictSet_ne true sc (by decide)]

theorem check_dependencies_idem (opts : Options) :
    check_dependencies (check_dependencies opts) = check_dependencies opts := by
  unfold check_dependencies
  by_cases hc : codecOptions.any
      (fun o => (alookup o (opts.system_config.getD [])).getD false) = true
  · simp only [hc, if_true, Option.getD_some, codec_any_dictSet, dictSet_dictSet]
  · rw [Bool.not_eq_true] at hc
    simp only [hc, Bool.false_eq_true, if_false, Option.getD_some]

/-! ### Characterizing the notification pass -/

theorem depsFold_spec (nattd : Nattd) (appName : String)
    (deps : List String) (sc : List (String × Bool)) (ns : List String) :
    deps.foldl (depStep nattd appName) (sc, ns) =
      (if deps.any (fun d => d == "enable_rpmfusion") then
        dictSet "enable_rpmfusion" true sc else sc,
       if deps.any (fun d => d == "enable_rpmfusion")
          && !((alookup "enable_rpmfusion" sc).getD false) then
        ns ++ [dependencyMsg (configName nattd "enable_rpmfusion") appName]
       else ns) := by
  induction deps generalizing sc ns with
  | nil => simp
  | cons d rest ih =>
    rw [List.foldl_cons]
    by_cases hd : d = "enable_rpmfusion"
    · subst hd
      by_cases ha : (alookup "enable_rpmfusion" sc).getD false = true
      · have hself : dictSet "enable_rpmfusion" true sc = sc :=
          dictSet_self (getD_false_eq_true ha)
        simp [depStep, ha, hself, ih]
      · rw [Bool.not_eq_true] at ha
        have hset : (alookup "enable_rpmfusion"
            (dictSet "enable_rpmfusion" true sc)).getD false = true := by
          rw [alookup_dictSet_self]; rfl
        simp [depStep, ha, ih, hset, dictSet_dictSet]
    · simp [depStep, hd, ih]

theorem appsFold_spec (nattd : Nattd) (catSel : List (String × AppSel))
    (apps : List (String × AppEntry)) (sc : List (String × Bool))
    (ns : List String) :
    apps.foldl (appStep nattd catSel) (sc, ns) =
      (if (appsTriggerNames catSel apps).isEmpty then sc
       else dictSet "enable_rpmfusion" true sc,
       match appsTriggerNames catSel apps with
       | [] => ns
       | nm :: _ =>
         if (alookup "enable_rpmfusion" sc).getD false then ns
         else ns ++ [dependencyMsg (configName nattd "enable_rpmfusion") nm]) := by
  induction apps generalizing sc ns with
  | nil => simp [appsTriggerNames]
  | cons ae rest ih =>
    rw [List.foldl_cons]
    have hstep : appStep nattd catSel (sc, ns) ae =
        (appDependencies ae.2 ((alookup ae.1 catSel).getD .notDict)).foldl
          (depStep nattd (ae.2.name.getD ae.1)) (sc, ns) := rfl
    by_cases ht : (appDependencies ae.2 ((alookup ae.1 catSel).getD .notDict)).any
        (fun d => d == "enable_rpmfusion") = true
    · rw [hstep, depsFold_spec, ht]
      have hnames : appsTriggerNames catSel (ae :: rest) =
          (ae.2.name.getD ae.1) :: appsTriggerNames catSel rest := by
        simp only [appsTriggerNames, List.filterMap_cons, ht, if_true]
      by_cases ha : (alookup "enable_rpmfusion" sc).getD false = true
      · have hself : dictSet "enable_rpmfusion" true sc = sc :=
          dictSet_self (getD_false_eq_true ha)
        rw [ha]
        simp only [Bool.not_true, Bool.and_false, if_true, if_false, hself]
        rw [ih, hnames]
        cases hr : appsTriggerNames catSel rest with
        | nil => simp [ha, hself]
        | cons nm2 r2 => simp [ha, hself]
      · rw [Bool.not_eq_true] at ha
        have hset : (alookup "enable_rpmfusion"
            (dictSet "enable_rpmfusion" true sc)).getD false = true := by
          rw [alookup_dictSet_self]; rfl
        rw [ha]
        simp only [Bool.not_false, Bool.and_true, if_true]
        rw [ih, hnames]
        cases hr : appsTriggerNames catSel rest with
        | nil => simp [ha, hset, dictSet_dictSet]
        | cons nm2 r2 => simp [ha, hset, dictSet_dictSet]
    · rw [Bool.not_eq_true] at ht
      rw [hstep, depsFold_spec, ht]
      have hnames : appsTriggerNames catSel (ae :: rest) =
          appsTriggerNames catSel rest := by
        simp only [appsTriggerNames, List.filterMap_cons, ht, Bool.false_eq_true,
          if_false]
      simp only [Bool.false_eq_true, if_false, Bool.false_and, hnames]
      exact ih sc ns

theorem catsFold_spec (nattd : Nattd) (opts : Options)
    (cats : List (String × Category)) (sc : List (String × Bool))
    (ns : List String) :
    cats.foldl (catStep nattd opts) (sc, ns) =
      (if (cats.flatMap (fun cat => appsTriggerNames
            ((alookup cat.1 (opts.additional_apps.getD [])).getD [])
            (cat.2.apps.getD []))).isEmpty then sc
       else dictSet "enable_rpmfusion" true sc,
       match cats.flatMap (fun cat => appsTriggerNames
            ((alookup cat.1 (opts.additional_apps.getD [])).getD [])
            (cat.2.apps.getD [])) with
       | [] => ns
       | nm :: _ =>
         if (alookup "enable_rpmfusion" sc).getD false then ns
         else ns ++ [dependencyMsg (configName nattd "enable_rpmfusion") nm]) := by
  induction cats generalizing sc ns with
  | nil => simp
  | cons cat rest ih =>
    rw [List.foldl_cons]
    have hstep : catStep nattd opts (sc, ns) cat =
        (cat.2.apps.getD []).foldl
          (appStep nattd ((alookup cat.1 (opts.additional_apps.getD [])).getD []))
          (sc, ns) := rfl
    rw [hstep, appsFold_spec]
    cases hc : appsTriggerNames
        ((alookup cat.1 (opts.additional_apps.getD [])).getD [])
        (cat.2.apps.getD []) with
    | nil =>
      simp only [List.isEmpty_nil, if_true, List.flatMap_cons, hc,
        List.nil_append]
      exact ih sc ns
    | cons nm r =>
      simp only [List.isEmpty_cons, if_false, List.flatMap_cons, hc]
      by_cases ha : (alookup "enable_rpmfusion" sc).getD false = true
      · have hself : dictSet "enable_rpmfusion" true sc = sc :=
          dictSet_self (getD_false_eq_true ha)
        rw [ha, if_pos rfl, hself, ih]
        cases hrest : rest.flatMap (fun cat => appsTriggerNames
            ((alookup cat.1 (opts.additional_apps.getD [])).getD [])
            (cat.2.apps.getD [])) with
        | nil => simp [ha, hself]
        | cons nm2 r2 => simp [ha, hself]
      · rw [Bool.not_eq_true] at ha
        have hset : (alookup "enable_rpmfusion"
            (dictSet "enable_rpmfusion" true sc)).getD false = true := by
          rw [alookup_dictSet_self]; rfl
        rw [ha, if_neg (by simp), ih]
        cases hrest : rest.flatMap (fun cat => appsTriggerNames
            ((alookup cat.1 (opts.additional_apps.getD [])).getD [])
            (cat.2.apps.getD [])) with
        | nil => simp [ha, hset]
        | cons nm2 r2 => simp [ha, hset, dictSet_dictSet]

theorem triggerNames_eq (nattd : Nattd) (opts : Options) :
    triggerNames nattd opts =
      (nattd.additional_apps.getD []).flatMap (fun cat => appsTriggerNames
        ((alookup cat.1 (opts.additional_apps.getD [])).getD [])
        (cat.2.apps.getD [])) := by
  unfold triggerNames appsTriggerNames
  rfl

theorem papd_spec (nattd : Nattd) (opts : Options) :
    process_all_dependencies nattd opts =
      ({ check_dependencies opts with
          system_config := some
            (if (triggerNames nattd opts).isEmpty then
              (check_dependencies opts).system_config.getD []
             else dictSet "enable_rpmfusion" true
              ((check_dependencies opts).system_config.getD [])) },
       match triggerNames nattd opts with
       | [] => []
       | nm :: _ =>
         if (alookup "enable_rpmfusion"
              ((check_dependencies opts).system_config.getD [])).getD false then []
         else [dependencyMsg (configName nattd "enable_rpmfusion") nm]) := by
  simp only [process_all_dependencies]
  rw [catsFold_spec, triggerNames_eq]
  cases h : (nattd.additional_apps.getD []).flatMap (fun cat => appsTriggerNames
      ((alookup cat.1 (opts.additional_apps.getD [])).getD [])
      (cat.2.apps.getD [])) with
  | nil => simp
  | cons nm r =>
    by_cases ha : (alookup "enable_rpmfusion"
        ((check_dependencies opts).system_config.getD [])).getD false = true
    · simp [ha]
    · rw [Bool.not_eq_true] at ha
      simp [ha]

/-! ### Claim C9: the notification list of one resolution pass -/

/-- Claim C9 (spec-modelled: `process_all_dependencies` is called from
`utils/state.py` but its definition is not under src/): one resolution pass
emits the mandated notification for the repository dependency exactly when
it was not already enabled, attributed to the first triggering app in catalog
iteration order; hence at most one notification per dependency id, and a
dependency enabled before the pass produces none. -/
theorem dependency_notifications_spec (nattd : Nattd) (opts : Options) :
    (process_all_dependencies nattd opts).2 =
      (match triggerNames nattd opts with
       | [] => []
       | nm :: _ =>
         if (alookup "enable_rpmfusion"
              ((check_dependencies opts).system_config.getD [])).getD false then []
         else [dependencyMsg (configName nattd "enable_rpmfusion") nm])
    ∧ (process_all_dependencies nattd opts).2.length ≤ 1
    ∧ ((alookup "enable_rpmfusion" (opts.system_config.getD [])).getD false = true →
        (process_all_dependencies nattd opts).2 = []) := by
  have h2 : (process_all_dependencies nattd opts).2 =
      (match triggerNames nattd opts with
       | [] => []
       | nm :: _ =>
         if (alookup "enable_rpmfusion"
              ((check_dependencies opts).system_config.getD [])).getD false then []
         else [dependencyMsg (configName nattd "enable_rpmfusion") nm]) := by
    rw [papd_spec]
  refine ⟨h2, ?_, ?_⟩
  · rw [h2]
    cases triggerNames nattd opts with
    | nil => simp
    | cons nm r =>
      by_cases ha : (alookup "enable_rpmfusion"
          ((check_dependencies opts).system_config.getD [])).getD false = true
      · simp [ha]
      · rw [Bool.not_eq_true] at ha
        simp [ha]
  · intro hpre
    have hpost : (alookup "enable_rpmfusion"
        ((check_dependencies opts).system_config.getD [])).getD false = true := by
      unfold check_dependencies
      by_cases hc : codecOptions.any
          (fun o => (alookup o (opts.system_config.getD [])).getD false) = true
      · simp only [hc, if_true, Option.getD_some]
        rw [alookup_dictSet_self]
        rfl
      · rw [Bool.not_eq_true] at hc
        simp only [hc, Bool.false_eq_true, if_false, Option.getD_some]
        exact hpre
    rw [h2, hpost]
    cases triggerNames nattd opts with
    | nil => rfl
    | cons nm r => simp

/-! ### Claim C2: resolution is idempotent -/

theorem options_eta_system_config {o : Options} {x : List (String × Bool)}
    (h : o.system_config = some x) :
    { o with system_config := some (o.system_config.getD []) } = o := by
  cases o
  simp only at h
  simp [h]

theorem chk_as_update (opts : Options) :
    check_dependencies opts =
      { opts with system_config := some (if codecOptions.any (fun o => (alookup o (opts.system_config.getD [])).getD false) = true then dictSet "enable_rpmfusion" true (opts.system_config.getD []) else opts.system_config.getD []) } := by
  unfold check_dependencies
  cases hc : codecOptions.any
      (fun o => (alookup o (opts.system_config.getD [])).getD false) <;>
    simp [hc]

theorem chk_papd_fixed (nattd : Nattd) (opts : Options) :
    check_dependencies (process_all_dependencies nattd opts).1 =
      (process_all_dependencies nattd opts).1 := by
  rw [papd_spec]
  simp only [chk_as_update]
  set sc := opts.system_config.getD [] with hsc
  by_cases hc : codecOptions.any (fun o => (alookup o sc).getD false) = true
  · by_cases ht : (triggerNames nattd opts).isEmpty = true
    · simp [chk_as_update, hc, ht, codec_any_dictSet, dictSet_dictSet]
    · simp only [Bool.not_eq_true] at ht
      simp [chk_as_update, hc, ht, codec_any_dictSet, dictSet_dictSet]
  · rw [Bool.not_eq_true] at hc
    by_cases ht : (triggerNames nattd opts).isEmpty = true
    · simp [chk_as_update, hc, ht, codec_any_dictSet]
    · simp only [Bool.not_eq_true] at ht
      simp [chk_as_update, hc, ht, codec_any_dictSet, dictSet_dictSet]

theorem triggerNames_papd (nattd : Nattd) (opts : Options) :
    triggerNames nattd (process_all_dependencies nattd opts).1 =
      triggerNames nattd opts := by
  have ha : (process_all_dependencies nattd opts).1.additional_apps =
      opts.additional_apps := by
    rw [papd_spec]
    simp [chk_as_update]
  unfold triggerNames
  rw [ha]

/-- Claim C2: the dependency resolver is idempotent — `check_dependencies`
applied to its own output returns it unchanged, and (spec-modelled
notification pass) re-resolving an already-resolved Selection yields the
same Selection and an empty notification list. -/
theorem resolution_idempotent (nattd : Nattd) (opts : Options) :
    check_dependencies (check_dependencies opts) = check_dependencies opts
    ∧ process_all_dependencies nattd (process_all_dependencies nattd opts).1 =
        ((process_all_dependencies nattd opts).1, []) := by
  refine ⟨check_dependencies_idem opts, ?_⟩
  have hfix := chk_papd_fixed nattd opts
  have htn := triggerNames_papd nattd opts
  have hs2 := papd_spec nattd (process_all_dependencies nattd opts).1
  rw [hfix, htn] at hs2
  have hsc1 : (process_all_dependencies nattd opts).1.system_config =
      some (if (triggerNames nattd opts).isEmpty then
        (check_dependencies opts).system_config.getD []
       else dictSet "enable_rpmfusion" true
        ((check_dependencies opts).system_config.getD [])) := by
    rw [papd_spec]
  cases htn2 : triggerNames nattd opts with
  | nil =>
    rw [htn2] at hs2 hsc1
    simp only [List.isEmpty_nil, if_true] at hs2 hsc1
    rw [hs2, options_eta_system_config (x := (check_dependencies opts).system_config.getD []) hsc1]
  | cons nm r =>
    rw [htn2] at hs2 hsc1
    simp only [List.isEmpty_cons, Bool.false_eq_true, if_false] at hs2 hsc1
    have hscF : (process_all_dependencies nattd opts).1.system_config.getD [] =
        dictSet "enable_rpmfusion" true
          ((check_dependencies opts).system_config.getD []) := by
      rw [hsc1]
      rfl
    rw [hscF, dictSet_dictSet, alookup_dictSet_self] at hs2
    simp only [Option.getD_some, if_true] at hs2
    rw [hs2, ← hscF,
      options_eta_system_config (x := dictSet "enable_rpmfusion" true
        ((check_dependencies opts).system_config.getD [])) hsc1]

/-- Witness for C9's already-enabled case at a concrete input: the
repository option is enabled before the pass and the pass emits no
notification. -/
theorem dependency_notifications_spec_witness :
    (alookup "enable_rpmfusion"
      ((Options.mk (some [("enable_rpmfusion", true)]) none none none none
        none).system_config.getD [])).getD false = true
    ∧ (process_all_dependencies (Nattd.mk none none none none)
        (Options.mk (some [("enable_rpmfusion", true)]) none none none none
          none)).2 = [] :=
  ⟨by decide,
   (dependency_notifications_spec (Nattd.mk none none none none)
     (Options.mk (some [("enable_rpmfusion", true)]) none none none none
       none)).2.2 (by decide)⟩

/-! ### Heap lemmas for the mutation claim -/

theorem alookup_append_single_ne {κ α : Type} [DecidableEq κ] {a b : κ}
    (h : a ≠ b) (l : List (κ × α)) (d : α) :
    alookup a (l ++ [(b, d)]) = alookup a l := by
  induction l with
  | nil => simp [alookup, Ne.symm h]
  | cons kv t ih =>
    obtain ⟨k2, v2⟩ := kv
    by_cases h2 : k2 = a
    · simp [alookup, h2]
    · simp [alookup, h2, ih]

theorem heapGet_alloc_ne (σ : Store) (d : PDict) {a : Nat} (h : a ≠ σ.next) :
    heapGet (alloc σ d).1 a = heapGet σ a :=
  alookup_append_single_ne h σ.heap d

theorem heapGet_heapSet_ne (σ : Store) {a b : Nat} (d : PDict) (h : a ≠ b) :
    heapGet (heapSet σ b d) a = heapGet σ a :=
  alookup_dictSet_ne d σ.heap h

theorem alookup_mem {κ α : Type} [DecidableEq κ] {k : κ} {v : α}
    {l : List (κ × α)} (h : alookup k l = some v) : (k, v) ∈ l := by
  induction l with
  | nil => simp [alookup] at h
  | cons kv t ih =>
    obtain ⟨k2, v2⟩ := kv
    by_cases h2 : k2 = k
    · subst h2
      have h5 : v2 = v := by simpa [alookup] using h
      simp [h5]
    · simp only [alookup, if_neg h2] at h
      exact List.mem_cons_of_mem _ (ih h)

theorem copyVals_spec (σ : Store) (d : PDict) :
    σ.next ≤ (copyVals σ d).1.next
    ∧ (∀ a, a < σ.next → heapGet (copyVals σ d).1 a = heapGet σ a)
    ∧ ∀ k a, (k, PVal.r a) ∈ (copyVals σ d).2 →
        σ.next ≤ a ∧ a < (copyVals σ d).1.next := by
  induction d generalizing σ with
  | nil =>
    refine ⟨Nat.le_refl _, fun a _ => rfl, ?_⟩
    intro k a hmem
    simp [copyVals] at hmem
  | cons kv t ih =>
    obtain ⟨k, v⟩ := kv
    cases v with
    | r b0 =>
      obtain ⟨ihn, ihg, ihm⟩ := ih (alloc σ ((heapGet σ b0).getD [])).1
      have hnext : (alloc σ ((heapGet σ b0).getD [])).1.next = σ.next + 1 := rfl
      refine ⟨?_, ?_, ?_⟩
      · show σ.next ≤ (copyVals (alloc σ ((heapGet σ b0).getD [])).1 t).1.next
        omega
      · intro a ha
        show heapGet (copyVals (alloc σ ((heapGet σ b0).getD [])).1 t).1 a
          = heapGet σ a
        rw [ihg a (by omega)]
        exact heapGet_alloc_ne σ _ (by omega)
      · intro k2 a hmem
        have : (k2, PVal.r a) = (k, PVal.r σ.next)
            ∨ (k2, PVal.r a) ∈ (copyVals (alloc σ ((heapGet σ b0).getD [])).1 t).2 := by
          simpa [copyVals] using hmem
        rcases this with heq | hmem2
        · have h6 : PVal.r a = PVal.r σ.next := congrArg Prod.snd heq
          have ha : a = σ.next := by simpa using h6
          subst ha
          refine ⟨Nat.le_refl _, ?_⟩
          show σ.next < (copyVals (alloc σ ((heapGet σ b0).getD [])).1 t).1.next
          omega
        · have := ihm k2 a hmem2
          constructor
          · omega
          · exact this.2
    | b vb =>
      obtain ⟨ihn, ihg, ihm⟩ := ih σ
      refine ⟨ihn, ihg, ?_⟩
      intro k2 a hmem
      have : (k2, PVal.r a) = (k, PVal.b vb) ∨ (k2, PVal.r a) ∈ (copyVals σ t).2 := by
        simpa [copyVals] using hmem
      rcases this with heq | hmem2
      · have := congrArg Prod.snd heq
        simp at this
      · exact ihm k2 a hmem2
    | s vs =>
      obtain ⟨ihn, ihg, ihm⟩ := ih σ
      refine ⟨ihn, ihg, ?_⟩
      intro k2 a hmem
      have : (k2, PVal.r a) = (k, PVal.s vs) ∨ (k2, PVal.r a) ∈ (copyVals σ t).2 := by
        simpa [copyVals] using hmem
      rcases this with heq | hmem2
      · have := congrArg Prod.snd heq
        simp at this
      · exact ihm k2 a hmem2

/-! ### Claim C6: the current resolver never mutates its input -/

/-- Claim C6 amended: the current resolver (`scripts/builder.py`
`check_dependencies`) works on a copy — every heap cell that existed before
the call reads the same after it, and the returned Selection is a freshly
allocated object, distinct from the input.  (The claim as stated also covers
the legacy top-level `builder.py` `check_dependencies`, which does mutate —
see the counterexample.) -/
theorem resolver_preserves_input (σ : Store) (a : Nat) (σ2 : Store) (a2 : Nat)
    (h : check_dependencies_heap σ a = some (σ2, a2)) :
    (∀ ad, ad < σ.next → heapGet σ2 ad = heapGet σ ad)
    ∧ σ.next ≤ a2 ∧ (a < σ.next → a2 ≠ a) := by
  obtain ⟨hn1, hg1, hm1⟩ := copyVals_spec σ ((heapGet σ a).getD [])
  simp only [check_dependencies_heap] at h
  set σ1 := (copyVals σ ((heapGet σ a).getD [])).1 with hσ1
  cases hkey : alookup "system_config" (copyVals σ ((heapGet σ a).getD [])).2 with
  | none =>
    simp only [hkey, alookup_dictSet_self] at h
    have hnx : (alloc σ1 []).1.next = σ1.next + 1 := rfl
    have hnx2 : (alloc σ1 []).2 = σ1.next := rfl
    split at h
    · rw [Option.some.injEq, Prod.mk.injEq] at h
      obtain ⟨hσ2, ha2⟩ := h
      have ha2n : a2 = σ1.next + 1 := by rw [← ha2]; rfl
      refine ⟨?_, by omega, by omega⟩
      intro ad had
      rw [← hσ2, heapGet_heapSet_ne _ _ (by omega),
        heapGet_alloc_ne _ _ (by omega), heapGet_alloc_ne _ _ (by omega)]
      exact hg1 ad had
    · rw [Option.some.injEq, Prod.mk.injEq] at h
      obtain ⟨hσ2, ha2⟩ := h
      have ha2n : a2 = σ1.next + 1 := by rw [← ha2]; rfl
      refine ⟨?_, by omega, by omega⟩
      intro ad had
      rw [← hσ2, heapGet_alloc_ne _ _ (by omega), heapGet_alloc_ne _ _ (by omega)]
      exact hg1 ad had
  | some v =>
    cases v with
    | r sa =>
      simp only [hkey] at h
      rw [← hσ1] at h
      obtain ⟨hsa1, hsa2⟩ := hm1 "system_config" sa (alookup_mem hkey)
      split at h
      · rw [Option.some.injEq, Prod.mk.injEq] at h
        obtain ⟨hσ2, ha2⟩ := h
        have ha2n : a2 = σ1.next := by rw [← ha2]; rfl
        refine ⟨?_, by omega, by omega⟩
        intro ad had
        rw [← hσ2, heapGet_heapSet_ne _ _ (by omega),
          heapGet_alloc_ne _ _ (by omega)]
        exact hg1 ad had
      · rw [Option.some.injEq, Prod.mk.injEq] at h
        obtain ⟨hσ2, ha2⟩ := h
        have ha2n : a2 = σ1.next := by rw [← ha2]; rfl
        refine ⟨?_, by omega, by omega⟩
        intro ad had
        rw [← hσ2, heapGet_alloc_ne _ _ (by omega)]
        exact hg1 ad had
    | b vb => simp [hkey] at h
    | s vs => simp [hkey] at h

/-- Witness for C6 at the concrete store `sigma0`: the call succeeds, the
two pre-existing cells read unchanged, and the returned address is fresh. -/
theorem resolver_preserves_input_witness :
    check_dependencies_heap sigma0 0 =
      some (⟨[(0, [("system_config", PVal.r 1)]),
              (1, [("install_multimedia_codecs", PVal.b true)]),
              (2, [("install_multimedia_codecs", PVal.b true),
                   ("enable_rpmfusion", PVal.b true)]),
              (3, [("system_config", PVal.r 2)])], 4⟩, 3)
    ∧ heapGet (⟨[(0, [("system_config", PVal.r 1)]),
              (1, [("install_multimedia_codecs", PVal.b true)]),
              (2, [("install_multimedia_codecs", PVal.b true),
                   ("enable_rpmfusion", PVal.b true)]),
              (3, [("system_config", PVal.r 2)])], 4⟩ : Store) 1 = heapGet sigma0 1
    ∧ (3 : Nat) ≠ 0 := by
  have hth := resolver_preserves_input sigma0 0
    ⟨[(0, [("system_config", PVal.r 1)]),
      (1, [("install_multimedia_codecs", PVal.b true)]),
      (2, [("install_multimedia_codecs", PVal.b true),
           ("enable_rpmfusion", PVal.b true)]),
      (3, [("system_config", PVal.r 2)])], 4⟩ 3 (by decide)
  exact ⟨by decide, hth.1 1 (by decide), hth.2.2 (by decide)⟩

/-- Claim C6 counterexample: the legacy top-level `builder.py`
`check_dependencies` mutates its input in place — at `sigma0` (multimedia
codecs enabled, repository option unset) the call writes `enable_rpmfusion`
into the caller's `system_config` dict and returns the very same address. -/
theorem legacy_resolver_mutates :
    legacy_check_dependencies_heap sigma0 0 =
      some (⟨[(0, [("system_config", PVal.r 1)]),
              (1, [("install_multimedia_codecs", PVal.b true),
                   ("enable_rpmfusion", PVal.b true)])], 2⟩, 0)
    ∧ heapGet sigma0 1 = some [("install_multimedia_codecs", PVal.b true)]
    ∧ heapGet (⟨[(0, [("system_config", PVal.r 1)]),
              (1, [("install_multimedia_codecs", PVal.b true),
                   ("enable_rpmfusion", PVal.b true)])], 2⟩ : Store) 1
        ≠ heapGet sigma0 1 := by
  refine ⟨by decide, by decide, by decide⟩

/-! ### Replacement preserves and misses occurrences

General lemmas about `replaceAll`, used for the hostname-token and
missing-command-warning claims. -/

theorem occursIn_nil {w : List Char} (h : occursIn w []) : w = [] := by
  rcases h with ⟨x, y, hxy⟩
  rcases List.append_eq_nil.mp hxy.symm with ⟨h1, h2⟩
  exact (List.append_eq_nil.mp h1).2

theorem replaceAll_prefix_run {p r : List Char} :
    ∀ (w s2 : List Char),
      (∀ k, k < w.length → isPre p ((w ++ s2).drop k) = false) →
      replaceAll p r (w ++ s2) = w ++ replaceAll p r s2 := by
  intro w
  induction w with
  | nil => intro s2 _; simp
  | cons c cs ih =>
    intro s2 hcond
    have h0 : isPre p (c :: (cs ++ s2)) = false := by
      simpa using hcond 0 (by simp)
    rw [List.cons_append, replaceAll_cons_neg r h0, ih s2 (fun k hk => by
      simpa using hcond (k + 1) (by simpa using Nat.succ_lt_succ hk))]
    simp

theorem no_inner_match {p w : List Char} (H2 : ¬ occursIn p w)
    (H4 : ∀ k, 0 < k → k < w.length → isPre (w.drop k) p = false)
    (y : List Char) (k : Nat) (hk0 : 0 < k) (hk : k < w.length) :
    isPre p ((w ++ y).drop k) = false := by
  cases hq : isPre p ((w ++ y).drop k) with
  | false => rfl
  | true =>
    exfalso
    have hdrop : (w ++ y).drop k = w.drop k ++ y := by
      rw [List.drop_append_eq_append_drop, Nat.sub_eq_zero_of_le (le_of_lt hk),
        List.drop_zero]
    rw [hdrop] at hq
    obtain ⟨t, ht⟩ := (isPre_iff _ _).mp hq
    rcases List.append_eq_append_iff.mp ht with ⟨u, hu1, hu2⟩ | ⟨u, hu1, hu2⟩
    · exact absurd ((isPre_iff _ _).mpr ⟨u, hu1⟩) (by simp [H4 k hk0 hk])
    · refine H2 ⟨w.take k, u, ?_⟩
      conv_lhs => rw [← List.take_append_drop k w, hu1]
      rw [List.append_assoc]

theorem occursIn_replaceAll_preserve {p r w : List Char} (hp : p ≠ [])
    (hw : w ≠ [])
    (H1 : ¬ occursIn w p) (H2 : ¬ occursIn p w)
    (H3 : ∀ i, 0 < i → i < p.length → isPre (p.drop i) w = false)
    (H4 : ∀ k, 0 < k → k < w.length → isPre (w.drop k) p = false) :
    ∀ n (s : List Char), s.length ≤ n → occursIn w s →
      occursIn w (replaceAll p r s) := by
  intro n
  induction n with
  | zero =>
    intro s hs hocc
    have hnil : s = [] := List.length_eq_zero.mp (Nat.le_zero.mp hs)
    exact absurd (occursIn_nil (hnil ▸ hocc)) hw
  | succ n ih =>
    intro s hs hocc
    cases hpre : isPre p s with
    | true =>
      obtain ⟨s2, rfl⟩ := (isPre_iff _ _).mp hpre
      rw [replaceAll_append r s2 hp]
      obtain ⟨x, y, hxy⟩ := hocc
      rw [List.append_assoc] at hxy
      have hlen2 : s2.length ≤ n := by
        have := List.length_append p s2 ▸ hs
        have hp1 : 0 < p.length := List.length_pos.mpr hp
        omega
      rcases List.append_eq_append_iff.mp hxy with ⟨a, ha1, ha2⟩ | ⟨a, ha1, ha2⟩
      · -- the occurrence lies inside s2
        have : occursIn w s2 := ⟨a, y, by rw [ha2, List.append_assoc]⟩
        exact occursIn_of_mem_left (ih s2 hlen2 this)
      · -- the occurrence starts inside p
        rcases List.append_eq_append_iff.mp ha2 with ⟨b, hb1, hb2⟩ | ⟨b, hb1, hb2⟩
        · exact absurd ⟨x, b, by rw [ha1, hb1, List.append_assoc]⟩ H1
        · cases ha : a with
          | nil =>
            subst ha
            have hbw : w = b := by simpa using hb1
            have : occursIn w s2 := ⟨[], y, by rw [hb2, hbw]; simp⟩
            exact occursIn_of_mem_left (ih s2 hlen2 this)
          | cons a0 a1 =>
            subst ha
            cases hx : x with
            | nil =>
              subst hx
              simp only [List.nil_append] at ha1
              exact absurd ⟨[], b, by simp [← ha1, hb1]⟩ H2
            | cons x0 x1 =>
              subst hx
              have hxlen : 0 < (x0 :: x1).length := by simp
              have hplen : (x0 :: x1).length < p.length := by
                rw [ha1, List.length_append]
                simp
              have hdrop : p.drop (x0 :: x1).length = a0 :: a1 := by
                rw [ha1, List.drop_left]
              have : isPre (p.drop (x0 :: x1).length) w = true := by
                rw [hdrop]
                exact (isPre_iff _ _).mpr ⟨b, hb1⟩
              rw [H3 _ hxlen hplen] at this
              cases this
    | false =>
      cases s with
      | nil => exact absurd (occursIn_nil hocc) hw
      | cons c cs =>
        obtain ⟨x, y, hxy⟩ := hocc
        cases hx : x with
        | nil =>
          subst hx
          have hwpre : c :: cs = w ++ y := by simpa using hxy
          have hcond : ∀ k, k < w.length → isPre p ((w ++ y).drop k) = false := by
            intro k hk
            cases k with
            | zero =>
              rw [List.drop_zero, ← hwpre]
              exact hpre
            | succ k2 =>
              exact no_inner_match H2 H4 y (k2 + 1) (Nat.succ_pos _) hk
          rw [hwpre, replaceAll_prefix_run w y hcond]
          exact ⟨[], replaceAll p r y, by simp⟩
        | cons x0 x1 =>
          subst hx
          rw [replaceAll_cons_neg r hpre]
          have hxy2 : cs = x1 ++ w ++ y := by
            have := hxy
            simp only [List.cons_append, List.append_assoc] at this
            injection this with h1 h2
            rw [h2, List.append_assoc]
          have hlen2 : cs.length ≤ n := by
            have : (c :: cs).length ≤ n + 1 := hs
            simp at this
            omega
          exact occursIn_cons c (ih cs hlen2 ⟨x1, y, hxy2⟩)

theorem replaceAll_intro {p r : List Char} (hp : p ≠ []) :
    ∀ s, occursIn p s → ∃ x y, replaceAll p r s = x ++ r ++ y := by
  intro s
  induction s with
  | nil => intro hocc; exact absurd (occursIn_nil hocc) hp
  | cons c cs ih =>
    intro hocc
    cases hpre : isPre p (c :: cs) with
    | true =>
      exact ⟨[], replaceAll p r (cs.drop (p.length - 1)), by
        rw [replaceAll_cons_pos r hp hpre]; simp⟩
    | false =>
      obtain ⟨x, y, hxy⟩ := hocc
      cases hx : x with
      | nil =>
        subst hx
        simp only [List.nil_append] at hxy
        rw [(isPre_iff p (c :: cs)).mpr ⟨y, hxy⟩] at hpre
        cases hpre
      | cons x0 x1 =>
        subst hx
        have hcs : cs = x1 ++ p ++ y := by
          simp only [List.cons_append, List.append_assoc] at hxy
          injection hxy with h1 h2
          rw [h2, List.append_assoc]
        obtain ⟨x2, y2, hra⟩ := ih ⟨x1, y, hcs⟩
        exact ⟨c :: x2, y2, by rw [replaceAll_cons_neg r hpre, hra]; simp⟩

theorem replaceAll_suffix_aux {t h : List Char} {cl : Char}
    (hh : ¬ occursIn h t) (hbrace : ∀ i, i < t.length → cl ∈ t.drop i)
    (hr : cl ∉ h) :
    ∀ n (s w v : List Char), s.length ≤ n → w ≠ [] → (∃ u, t = u ++ w) →
      replaceAll t h s = w ++ v → ∃ v2, s = w ++ v2 := by
  intro n
  induction n with
  | zero =>
    intro s w v hs hw _ heq
    have hnil : s = [] := List.length_eq_zero.mp (Nat.le_zero.mp hs)
    subst hnil
    rw [replaceAll_nil] at heq
    rcases List.append_eq_nil.mp heq.symm with ⟨h1, _⟩
    exact absurd h1 hw
  | succ n ih =>
    intro s w v hs hw hsuf heq
    obtain ⟨u, hu⟩ := hsuf
    have ht : t ≠ [] := by
      intro h0
      rw [h0] at hu
      exact hw (List.append_eq_nil.mp hu.symm).2
    cases hpre : isPre t s with
    | true =>
      exfalso
      obtain ⟨s2, rfl⟩ := (isPre_iff _ _).mp hpre
      rw [replaceAll_append h s2 ht] at heq
      rcases List.append_eq_append_iff.mp heq with ⟨a, ha1, _⟩ | ⟨a, ha1, _⟩
      · -- h is a prefix of w, hence occurs in t
        exact hh ⟨u, a, by rw [hu, ha1, List.append_assoc]⟩
      · -- w is a prefix of h, but w contains cl and h does not
        have hwmem : cl ∈ w := by
          have hwdrop : w = t.drop u.length := by rw [hu, List.drop_left]
          have hul : u.length < t.length := by
            rw [hu, List.length_append]
            have : 0 < w.length := List.length_pos.mpr hw
            omega
          rw [hwdrop]
          exact hbrace u.length hul
        exact hr (ha1 ▸ List.mem_append.mpr (Or.inl hwmem))
    | false =>
      cases s with
      | nil =>
        rw [replaceAll_nil] at heq
        rcases List.append_eq_nil.mp heq.symm with ⟨h1, _⟩
        exact absurd h1 hw
      | cons c cs =>
        rw [replaceAll_cons_neg h hpre] at heq
        cases w with
        | nil => exact absurd rfl hw
        | cons cw w2 =>
          rw [List.cons_append] at heq
          injection heq with h1 h2
          cases w2 with
          | nil => exact ⟨cs, by rw [h1]; rfl⟩
          | cons d w3 =>
            have hlen : cs.length ≤ n := by
              have : (c :: cs).length ≤ n + 1 := hs
              simp at this
              omega
            obtain ⟨v2, hv2⟩ := ih cs (d :: w3) v hlen (by simp)
              ⟨u ++ [cw], by rw [hu]; simp⟩ h2
            exact ⟨v2, by rw [h1, List.cons_append, hv2]⟩

theorem replaceAll_no_token {t h : List Char} {co cl : Char}
    (hh : ¬ occursIn h t) (hbrace : ∀ i, i < t.length → cl ∈ t.drop i)
    (hrO : co ∉ h) (hrC : cl ∉ h) (hhead : t.head? = some co) :
    ∀ n (s : List Char), s.length ≤ n → ¬ occursIn t (replaceAll t h s) := by
  have ht : t ≠ [] := by
    intro h0
    rw [h0] at hhead
    cases hhead
  have hcomem : co ∈ t := by
    cases t with
    | nil => cases hhead
    | cons t0 t1 =>
      have : t0 = co := by simpa using hhead
      simp [this]
  intro n
  induction n with
  | zero =>
    intro s hs hocc
    have hnil : s = [] := List.length_eq_zero.mp (Nat.le_zero.mp hs)
    subst hnil
    rw [replaceAll_nil] at hocc
    exact ht (occursIn_nil hocc)
  | succ n ih =>
    intro s hs hocc
    cases hpre : isPre t s with
    | true =>
      obtain ⟨s2, rfl⟩ := (isPre_iff _ _).mp hpre
      rw [replaceAll_append h s2 ht] at hocc
      have hlen2 : s2.length ≤ n := by
        have := List.length_append t s2 ▸ hs
        have ht1 : 0 < t.length := List.length_pos.mpr ht
        omega
      obtain ⟨x, y, hxy⟩ := hocc
      rw [List.append_assoc] at hxy
      rcases List.append_eq_append_iff.mp hxy with ⟨a, ha1, ha2⟩ | ⟨a, ha1, ha2⟩
      · exact ih s2 hlen2 ⟨a, y, by rw [ha2, List.append_assoc]⟩
      · rcases List.append_eq_append_iff.mp ha2 with ⟨b, hb1, hb2⟩ | ⟨b, hb1, hb2⟩
        · -- t occurs inside h, impossible since co ∈ t but co ∉ h
          refine hrO ?_
          have : occursIn t h := ⟨x, b, by rw [ha1, hb1, List.append_assoc]⟩
          exact mem_of_occursIn this hcomem
        · cases ha : a with
          | nil =>
            subst ha
            have hbt : t = b := by simpa using hb1
            exact ih s2 hlen2 ⟨[], y, by rw [hb2, hbt]; simp⟩
          | cons a0 a1 =>
            subst ha
            -- a nonempty prefix of t sits inside h: its head is co
            have ha0 : a0 = co := by
              have : t.head? = some a0 := by rw [hb1]; rfl
              rw [hhead] at this
              exact (Option.some.injEq _ _ ▸ this).symm
            refine hrO ?_
            rw [← ha0]
            exact ha1 ▸ List.mem_append.mpr (Or.inr (by simp))
    | false =>
      cases s with
      | nil =>
        rw [replaceAll_nil] at hocc
        exact ht (occursIn_nil hocc)
      | cons c cs =>
        rw [replaceAll_cons_neg h hpre] at hocc
        obtain ⟨x, y, hxy⟩ := hocc
        have hlen2 : cs.length ≤ n := by
          have : (c :: cs).length ≤ n + 1 := hs
          simp at this
          omega
        cases hx : x with
        | nil =>
          subst hx
          simp only [List.nil_append] at hxy
          obtain ⟨t0, t1, ht2⟩ : ∃ t0 t1, t = t0 :: t1 := by
            cases htt : t with
            | nil => exact absurd htt ht
            | cons a b => exact ⟨a, b, rfl⟩
          have hxy2 : c :: replaceAll t h cs = t0 :: (t1 ++ y) := by
            rw [hxy, ht2]
            rfl
          injection hxy2 with h1 h2
          cases ht1 : t1 with
          | nil =>
            -- t = [t0] with t0 = c would make t a prefix of s
            rw [(isPre_iff t (c :: cs)).mpr ⟨cs, by rw [ht2, ht1, h1]; rfl⟩] at hpre
            cases hpre
          | cons d t2 =>
            obtain ⟨v2, hv2⟩ := replaceAll_suffix_aux hh hbrace hrC cs.length cs t1 y
              (Nat.le_refl _) (by rw [ht1]; simp) ⟨[t0], by rw [ht2]; rfl⟩ h2
            rw [(isPre_iff t (c :: cs)).mpr ⟨v2, by rw [ht2, h1, hv2]; rfl⟩] at hpre
            cases hpre
        | cons x0 x1 =>
          subst hx
          have hxy2 : c :: replaceAll t h cs = x0 :: (x1 ++ (t ++ y)) := by
            rw [hxy]
            simp
          injection hxy2 with h1 h2
          exact ih cs hlen2 ⟨x1, y, by rw [h2, List.append_assoc]⟩

theorem not_occursIn_of_subList_false {p s : List Char}
    (h : subList p s = false) : ¬ occursIn p s := fun hocc => by
  rw [(subList_iff p s).mpr hocc] at h
  cases h

/-! ### Claim C7: the hostname token after substitution -/

/-- Claim C7 counterexample: with hostname `""` (the text input may be
empty) and the template `{host{hostname}name}`, `build_full_script` replaces
the token by the empty string and the surrounding text re-forms the raw
token — the output consists of exactly the raw token, not zero occurrences
of it. -/
theorem hostname_token_counterexample :
    build_full_script "\x7bhost\x7bhostname\x7dname\x7d"
      (Nattd.mk none none none none)
      (Options.mk none none none none (some "") none) "Verbose"
      = "\x7bhostname\x7d"
    ∧ pyIn "\x7bhostname\x7d"
        (build_full_script "\x7bhost\x7bhostname\x7dname\x7d"
          (Nattd.mk none none none none)
          (Options.mk none none none none (some "") none) "Verbose") = true := by
  refine ⟨by decide, by decide⟩

/-- Claim C7 amended: `build_full_script` substitutes the section slots and
then replaces every `{hostname}` token, left to right, by the Selection's
hostname or the default `fedora-workstation`; the result contains zero
occurrences of the raw token provided the replacement string contains no
brace and does not itself occur inside the token (true of any ordinary
hostname and of the default; false e.g. for the empty hostname). -/
theorem hostname_substitution_amended (template : String) (nattd : Nattd)
    (opts : Options) (mode : String)
    (hO : openBrace ∉ (opts.hostname.getD "fedora-workstation").data)
    (hC : closeBrace ∉ (opts.hostname.getD "fedora-workstation").data)
    (hocc : ¬ occursIn (opts.hostname.getD "fedora-workstation").data
        ("\x7bhostname\x7d" : String).data) :
    ¬ occursIn ("\x7bhostname\x7d" : String).data
      (build_full_script template nattd opts mode).data := by
  unfold build_full_script
  exact replaceAll_no_token hocc (by decide) hO hC (by decide) _ _ (Nat.le_refl _)

/-- Witness for C7 at a concrete template and the hostname `myhost`. -/
theorem hostname_substitution_amended_witness :
    (openBrace ∉ (((Options.mk none none none none (some "myhost")
        none).hostname.getD "fedora-workstation") : String).data
      ∧ closeBrace ∉ (("myhost" : String)).data
      ∧ subList ("myhost" : String).data ("\x7bhostname\x7d" : String).data = false)
    ∧ ¬ occursIn ("\x7bhostname\x7d" : String).data
        (build_full_script "x \x7bhostname\x7d y" (Nattd.mk none none none none)
          (Options.mk none none none none (some "myhost") none) "Verbose").data := by
  refine ⟨⟨by decide, by decide, by decide⟩, ?_⟩
  exact hostname_substitution_amended _ _ _ _ (by decide) (by decide)
    (not_occursIn_of_subList_false (by decide))

/-! ### Claim C8: the empty selection -/

theorem flatMap_nil_all {α β : Type} {l : List α} {f : α → List β}
    (h : ∀ x ∈ l, f x = []) : l.flatMap f = [] := by
  induction l with
  | nil => rfl
  | cons a t ih =>
    rw [List.flatMap_cons, h a (by simp), List.nil_append]
    exact ih (fun x hx => h x (List.mem_cons_of_mem _ hx))

theorem filterMap_nil_all {α β : Type} {l : List α} {f : α → Option β}
    (h : ∀ x ∈ l, f x = none) : l.filterMap f = [] := by
  induction l with
  | nil => rfl
  | cons a t ih =>
    rw [List.filterMap_cons, h a (by simp)]
    exact ih (fun x hx => h x (List.mem_cons_of_mem _ hx))

theorem codec_any_false {sc : List (String × Bool)}
    (h : ∀ kv ∈ sc, kv.2 = false) :
    codecOptions.any (fun o => (alookup o sc).getD false) = false := by
  simp only [codecOptions, List.any_cons, List.any_nil, Bool.or_false]
  rw [alookup_all_false h, alookup_all_false h, alookup_all_false h]
  rfl

/-- Claim C8 counterexample: for the Selection with every boolean false and
an empty custom script, `build_system_upgrade` does not return the empty
string — it always emits the upgrade block. -/
theorem empty_selection_counterexample :
    build_system_upgrade
      (Options.mk (some [("enable_rpmfusion", false)]) (some [("Btop", false)])
        (some [("System_Utilities", [("install_docker", AppSel.sel false none)])])
        (some [("install_nerd_fonts", CustSel.b false)]) none (some ""))
      "Verbose"
      = "color_echo \"blue\" \"Performing system upgrade... This may take a while...\"\ndnf upgrade -y\n"
    ∧ build_system_upgrade
      (Options.mk (some [("enable_rpmfusion", false)]) (some [("Btop", false)])
        (some [("System_Utilities", [("install_docker", AppSel.sel false none)])])
        (some [("install_nerd_fonts", CustSel.b false)]) none (some ""))
      "Verbose" ≠ "" := by
  refine ⟨by decide, by decide⟩

theorem essentialLines_unselected (nattd : Nattd) (opts : Options)
    (mode : String)
    (h : ∀ kv ∈ (opts.essential_apps.getD []), kv.2 = false) :
    essentialLines nattd opts mode = [] := by
  cases heo : opts.essential_apps with
  | none =>
    cases hna : nattd.essential_apps with
    | none => simp [essentialLines, heo, hna]
    | some inner =>
      cases inner with
      | none => simp [essentialLines, heo, hna]
      | some apps => simp [essentialLines, heo, hna]
  | some essOpts =>
    cases hna : nattd.essential_apps with
    | none => simp [essentialLines, heo, hna]
    | some inner =>
      cases inner with
      | none => simp [essentialLines, heo, hna]
      | some apps =>
        have hsel : apps.filterMap (essSelName essOpts) = [] := by
          apply filterMap_nil_all
          intro a _
          cases a with
          | bad => rfl
          | app name =>
            simp only [essSelName]
            rw [alookup_all_false (fun kv hkv => h kv (by
              rw [heo]
              simpa using hkv))]
            rfl
        simp [essentialLines, heo, hna, hsel]

theorem categoryLines_unselected (mode : String)
    (addCats : List (String × Category)) (c0 : String)
    (sel0 : List (String × AppSel))
    (h : ∀ av ∈ sel0, av.2.isSelected = false) :
    categoryLines mode addCats c0 sel0 = .ok [] := by
  have hfm : sel0.filterMap
      (fun kv => if kv.2.isSelected then some kv.1 else none) = [] := by
    apply filterMap_nil_all
    intro av hav
    rw [h av hav]
    rfl
  cases hl : alookup c0 addCats with
  | none => simp [categoryLines, hl]
  | some catData => simp [categoryLines, hl, hfm]

theorem additionalCatsLines_unselected (mode : String)
    (addCats : List (String × Category)) :
    ∀ addOpts, (∀ ckv ∈ addOpts, ∀ av ∈ ckv.2, av.2.isSelected = false) →
      additionalCatsLines mode addCats addOpts = .ok [] := by
  intro addOpts
  induction addOpts with
  | nil => intro _; rfl
  | cons ckv rest ih =>
    intro h
    obtain ⟨c0, sel0⟩ := ckv
    have hcat := categoryLines_unselected mode addCats c0 sel0
      (fun av hav => h (c0, sel0) (by simp) av hav)
    have hrest := ih (fun ckv hckv av hav =>
      h ckv (List.mem_cons_of_mem _ hckv) av hav)
    simp [additionalCatsLines, hcat, hrest]

theorem custAppLines_bfalse (mode : String)
    (custApps : List (String × AppEntry)) (i : String) :
    custAppLines mode custApps i (CustSel.b false) = [] := by
  cases hl : alookup i custApps with
  | none => simp [custAppLines, hl]
  | some e => simp [custAppLines, hl]

/-- Claim C8 amended: for a Selection with every boolean false and a
whitespace-only custom script (against a catalog that has its
`system_config` and `customization` sections), the system-config,
app-install, customization and custom-script renderers all return the empty
string, while `build_system_upgrade` always returns the upgrade block, so
the preview is the header and footer placeholders around exactly the System
Upgrade section. -/
theorem empty_selection_amended (nattd : Nattd) (opts : Options) (mode : String)
    (sysconf : List (String × ConfigEntry))
    (custApps : List (String × AppEntry)) (custOpts : List (String × CustSel))
    (hsys : nattd.system_config = some sysconf)
    (hcustN : nattd.customization = some (some custApps))
    (hsc : ∀ kv ∈ (opts.system_config.getD []), kv.2 = false)
    (hess : ∀ kv ∈ (opts.essential_apps.getD []), kv.2 = false)
    (hadd : ∀ ckv ∈ (opts.additional_apps.getD []), ∀ av ∈ ckv.2,
      av.2.isSelected = false)
    (hcust : opts.customization = some custOpts)
    (hcustV : ∀ kv ∈ custOpts, kv.2 = CustSel.b false)
    (hcs : pystrip (opts.custom_script.getD "") = "") :
    build_system_config nattd opts mode = ""
    ∧ build_app_install nattd opts mode = ""
    ∧ build_customization nattd opts mode = ""
    ∧ build_custom_script opts mode = ""
    ∧ build_script nattd opts mode =
        previewHeader ++ "# System Upgrade\n" ++ build_system_upgrade opts mode
          ++ "\n\n" ++ previewFooter := by
  have hsc2 : (check_dependencies opts).system_config =
      some (opts.system_config.getD []) := by
    simp [check_dependencies, codec_any_false hsc]
  have hcfg : build_system_config nattd opts mode = "" := by
    have hfm : ((opts.system_config.getD []).flatMap (fun kv =>
        configOptionLines (check_dependencies opts) mode sysconf kv.1 kv.2))
        = [] := by
      apply flatMap_nil_all
      intro kv hkv
      rw [hsc kv hkv]
      rfl
    simp only [build_system_config, hsys, hsc2]
    rw [hfm]
    rfl
  have happ : build_app_install nattd opts mode = "" := by
    have hessL := essentialLines_unselected nattd opts mode hess
    cases hao : opts.additional_apps with
    | none =>
      cases hna : nattd.additional_apps with
      | none => simp [build_app_install, hao, hna, hessL, joinLines]
      | some addCats => simp [build_app_install, hao, hna, hessL, joinLines]
    | some addOpts =>
      cases hna : nattd.additional_apps with
      | none => simp [build_app_install, hao, hna, hessL, joinLines]
      | some addCats =>
        have hadd2 : ∀ ckv ∈ addOpts, ∀ av ∈ ckv.2, av.2.isSelected = false := by
          intro ckv hckv
          exact hadd ckv (by rw [hao]; simpa using hckv)
        have hcats := additionalCatsLines_unselected mode addCats addOpts hadd2
        simp [build_app_install, hao, hna, hessL, hcats, joinLines]
  have hcustE : build_customization nattd opts mode = "" := by
    have hfm : custOpts.flatMap
        (fun kv => custAppLines mode custApps kv.1 kv.2) = [] := by
      apply flatMap_nil_all
      intro kv hkv
      have := hcustV kv hkv
      rw [this]
      exact custAppLines_bfalse mode custApps kv.1
    simp only [build_customization, hcustN, hcust]
    rw [hfm]
    rfl
  have hcsE : build_custom_script opts mode = "" := by
    unfold build_custom_script
    rw [hcs]
    rfl
  have hup : build_system_upgrade opts mode ≠ ""
      ∧ pystrip (build_system_upgrade opts mode) ≠ "" := by
    by_cases hm : mode = "Quiet"
    · subst hm
      have h1 : build_system_upgrade opts "Quiet" =
          "color_echo \"blue\" \"Performing system upgrade... This may take a while...\"\ndnf upgrade -y > /dev/null 2>&1\n" := rfl
      rw [h1]
      exact ⟨by decide, by decide⟩
    · have heq : build_system_upgrade opts mode =
          build_system_upgrade opts "Verbose" := by
        unfold build_system_upgrade quietRedirect
        rw [if_neg hm]
        rfl
      have h1 : build_system_upgrade opts "Verbose" =
          "color_echo \"blue\" \"Performing system upgrade... This may take a while...\"\ndnf upgrade -y\n" := rfl
      rw [heq, h1]
      exact ⟨by decide, by decide⟩
  refine ⟨hcfg, happ, hcustE, hcsE, ?_⟩
  have hgF : (decide (("" : String) ≠ "") && decide (pystrip ("" : String) ≠ ""))
      = false := by decide
  have hgT : (decide (build_system_upgrade opts mode ≠ "")
      && decide (pystrip (build_system_upgrade opts mode) ≠ "")) = true := by
    rw [Bool.and_eq_true]
    exact ⟨decide_eq_true hup.1, decide_eq_true hup.2⟩
  unfold build_script scriptParts
  rw [hcfg, happ, hcustE, hcsE]
  simp only [List.foldl_cons, List.foldl_nil, hgF, hgT, if_true,
    Bool.false_eq_true, if_false]
  have hconcat : previewHeader ++ "# "
      ++ pyTitle (pyReplace "system_upgrade" "_" " ") ++ "\n" =
      previewHeader ++ "# System Upgrade\n" := by decide
  rw [hconcat]

/-- Witness for C8 at a concrete all-false Selection and small catalog. -/
theorem empty_selection_amended_witness :
    build_system_config
      (Nattd.mk (some [("enable_rpmfusion",
          ConfigEntry.entry (some "RPM Fusion") (some "Enable RPM Fusion")
            (some (PyCmd.str "dnf install rpmfusion")))])
        (some (some [EssApp.app "Btop"]))
        (some [("System_Utilities", Category.mk (some "System Utilities")
          (some [("install_docker", AppEntry.mk (some "Docker") none
            (some (PyCmd.str "dnf install docker")) none)]))])
        (some (some [("install_nerd_fonts", AppEntry.mk (some "Nerd Fonts") none
          (some (PyCmd.str "bash nerdfonts.sh")) none)])))
      (Options.mk (some [("enable_rpmfusion", false)]) (some [("Btop", false)])
        (some [("System_Utilities", [("install_docker", AppSel.sel false none)])])
        (some [("install_nerd_fonts", CustSel.b false)]) none (some "  "))
      "Verbose" = ""
    ∧ build_script
      (Nattd.mk (some [("enable_rpmfusion",
          ConfigEntry.entry (some "RPM Fusion") (some "Enable RPM Fusion")
            (some (PyCmd.str "dnf install rpmfusion")))])
        (some (some [EssApp.app "Btop"]))
        (some [("System_Utilities", Category.mk (some "System Utilities")
          (some [("install_docker", AppEntry.mk (some "Docker") none
            (some (PyCmd.str "dnf install docker")) none)]))])
        (some (some [("install_nerd_fonts", AppEntry.mk (some "Nerd Fonts") none
          (some (PyCmd.str "bash nerdfonts.sh")) none)])))
      (Options.mk (some [("enable_rpmfusion", false)]) (some [("Btop", false)])
        (some [("System_Utilities", [("install_docker", AppSel.sel false none)])])
        (some [("install_nerd_fonts", CustSel.b false)]) none (some "  "))
      "Verbose" =
        previewHeader ++ "# System Upgrade\n"
          ++ build_system_upgrade
            (Options.mk (some [("enable_rpmfusion", false)]) (some [("Btop", false)])
              (some [("System_Utilities", [("install_docker", AppSel.sel false none)])])
              (some [("install_nerd_fonts", CustSel.b false)]) none (some "  "))
            "Verbose"
          ++ "\n\n" ++ previewFooter := by
  have hth := empty_selection_amended
    (Nattd.mk (some [("enable_rpmfusion",
        ConfigEntry.entry (some "RPM Fusion") (some "Enable RPM Fusion")
          (some (PyCmd.str "dnf install rpmfusion")))])
      (some (some [EssApp.app "Btop"]))
      (some [("System_Utilities", Category.mk (some "System Utilities")
        (some [("install_docker", AppEntry.mk (some "Docker") none
          (some (PyCmd.str "dnf install docker")) none)]))])
      (some (some [("install_nerd_fonts", AppEntry.mk (some "Nerd Fonts") none
        (some (PyCmd.str "bash nerdfonts.sh")) none)])))
    (Options.mk (some [("enable_rpmfusion", false)]) (some [("Btop", false)])
      (some [("System_Utilities", [("install_docker", AppSel.sel false none)])])
      (some [("install_nerd_fonts", CustSel.b false)]) none (some "  "))
    "Verbose" _ _ _ rfl rfl (by decide) (by decide) (by decide) rfl (by decide)
    (by decide)
  exact ⟨hth.1, hth.2.2.2.2⟩

/-! ### Claim C5: helper lemmas -/

theorem occursIn_inner {w c : List Char} (x y : List Char)
    (h : occursIn w c) : occursIn w (x ++ c ++ y) := by
  rcases h with ⟨a, b, rfl⟩
  exact ⟨x ++ a, b ++ y, by simp⟩

theorem occursIn_joinLines : ∀ (l : List String) (s : String), s ∈ l →
    occursIn s.data (joinLines l).data := by
  intro l
  induction l with
  | nil => intro s h; cases h
  | cons a rest ih =>
    intro s h
    rcases List.mem_cons.mp h with rfl | hrest
    · cases rest with
      | nil => exact ⟨[], [], by simp [joinLines]⟩
      | cons b t =>
        refine ⟨[], ("\n" : String).data ++ (joinLines (b :: t)).data, ?_⟩
        have hj : joinLines (s :: b :: t) = s ++ "\n" ++ joinLines (b :: t) := rfl
        rw [hj]
        simp [String.data_append]
    · cases rest with
      | nil => cases hrest
      | cons b t =>
        rcases ih s hrest with ⟨x, y, hxy⟩
        refine ⟨(a ++ "\n").data ++ x, y, ?_⟩
        have hj : joinLines (a :: b :: t) = a ++ "\n" ++ joinLines (b :: t) := rfl
        rw [hj]
        rw [String.data_append, String.data_append, hxy]
        simp

theorem additionalCatsLines_ok_sub (mode : String)
    (addCats : List (String × Category)) :
    ∀ (addOpts : List (String × List (String × AppSel))) (L : List String),
      additionalCatsLines mode addCats addOpts = .ok L →
      ∀ c0 sel0, (c0, sel0) ∈ addOpts →
        ∃ Lc, categoryLines mode addCats c0 sel0 = .ok Lc ∧ ∀ l ∈ Lc, l ∈ L := by
  intro addOpts
  induction addOpts with
  | nil =>
    intro L _ c0 sel0 hmem
    cases hmem
  | cons ckv rest ih =>
    intro L h c0 sel0 hmem
    obtain ⟨c1, sel1⟩ := ckv
    cases hcat : categoryLines mode addCats c1 sel1 with
    | error e =>
      rw [additionalCatsLines, hcat] at h
      cases h
    | ok l1 =>
      cases hrest : additionalCatsLines mode addCats rest with
      | error e =>
        rw [additionalCatsLines, hcat, hrest] at h
        cases h
      | ok r1 =>
        rw [additionalCatsLines, hcat, hrest] at h
        have hL : l1 ++ r1 = L := by
          injection h
        rcases List.mem_cons.mp hmem with heq | hmem2
        · have hc : c0 = c1 ∧ sel0 = sel1 := by
            constructor
            · exact congrArg Prod.fst heq
            · exact congrArg Prod.snd heq
          obtain ⟨rfl, rfl⟩ := hc
          exact ⟨l1, hcat, fun l hl => by
            rw [← hL]
            exact List.mem_append.mpr (Or.inl hl)⟩
        · obtain ⟨Lc, hLc, hsub⟩ := ih r1 hrest c0 sel0 hmem2
          exact ⟨Lc, hLc, fun l hl => by
            rw [← hL]
            exact List.mem_append.mpr (Or.inr (hsub l hl))⟩

theorem build_foldl_front (parts : List (String × String)) :
    ∀ acc : String, ∃ t, (parts.foldl (fun acc pc =>
        if pc.2 ≠ "" && pystrip pc.2 ≠ "" then
          acc ++ "# " ++ pyTitle (pyReplace pc.1 "_" " ") ++ "\n" ++ pc.2 ++ "\n\n"
        else acc) acc).data = acc.data ++ t := by
  induction parts with
  | nil =>
    intro acc
    exact ⟨[], by simp⟩
  | cons p0 rest ih =>
    intro acc
    rw [List.foldl_cons]
    by_cases hg : (decide (p0.2 ≠ "") && decide (pystrip p0.2 ≠ "")) = true
    · rw [if_pos hg]
      obtain ⟨t, ht⟩ := ih
        (acc ++ "# " ++ pyTitle (pyReplace p0.1 "_" " ") ++ "\n" ++ p0.2 ++ "\n\n")
      refine ⟨("# " ++ pyTitle (pyReplace p0.1 "_" " ") ++ "\n" ++ p0.2
        ++ "\n\n").data ++ t, ?_⟩
      rw [ht]
      simp [String.data_append]
    · rw [if_neg hg]
      exact ih acc

theorem build_foldl_contains (w : List Char) (parts : List (String × String)) :
    ∀ (acc : String) (pc : String × String), pc ∈ parts →
      (decide (pc.2 ≠ "") && decide (pystrip pc.2 ≠ "")) = true →
      occursIn w pc.2.data →
      occursIn w ((parts.foldl (fun acc pc =>
        if pc.2 ≠ "" && pystrip pc.2 ≠ "" then
          acc ++ "# " ++ pyTitle (pyReplace pc.1 "_" " ") ++ "\n" ++ pc.2 ++ "\n\n"
        else acc) acc)).data := by
  induction parts with
  | nil =>
    intro acc pc hmem
    cases hmem
  | cons p0 rest ih =>
    intro acc pc hmem hg hw
    rw [List.foldl_cons]
    rcases List.mem_cons.mp hmem with rfl | hmem2
    · rw [if_pos hg]
      obtain ⟨t, ht⟩ := build_foldl_front rest
        (acc ++ "# " ++ pyTitle (pyReplace pc.1 "_" " ") ++ "\n" ++ pc.2 ++ "\n\n")
      rw [ht]
      have hin : occursIn w (acc ++ "# " ++ pyTitle (pyReplace pc.1 "_" " ")
          ++ "\n" ++ pc.2 ++ "\n\n").data := by
        have hd : (acc ++ "# " ++ pyTitle (pyReplace pc.1 "_" " ")
            ++ "\n" ++ pc.2 ++ "\n\n").data =
            ((acc ++ "# " ++ pyTitle (pyReplace pc.1 "_" " ") ++ "\n").data
              ++ pc.2.data ++ ("\n\n" : String).data) := by
          simp [String.data_append]
        rw [hd]
        exact occursIn_inner _ _ hw
      exact occursIn_of_mem_right hin
    · by_cases hg0 : (decide (p0.2 ≠ "") && decide (pystrip p0.2 ≠ "")) = true
      · rw [if_pos hg0]
        exact ih _ pc hmem2 hg hw
      · rw [if_neg hg0]
        exact ih _ pc hmem2 hg hw

theorem head_mem_of_head_eq {p : List Char} {co : Char}
    (h : p.head? = some co) : co ∈ p := by
  cases p with
  | nil => cases h
  | cons a t =>
    have : a = co := by simpa using h
    simp [this]

theorem isPre_drop_false_of_last {p w : List Char} {cl : Char}
    (hlast : ∀ i, i < p.length → cl ∈ p.drop i) (hcl : cl ∉ w) :
    ∀ i, 0 < i → i < p.length → isPre (p.drop i) w = false := by
  intro i _ hi
  cases hq : isPre (p.drop i) w with
  | false => rfl
  | true =>
    exfalso
    rcases (isPre_iff _ _).mp hq with ⟨t, ht⟩
    exact hcl (ht ▸ List.mem_append.mpr (Or.inl (hlast i hi)))

theorem isPre_drop_false_of_head {p w : List Char} {co : Char}
    (hhead : p.head? = some co) (hco : co ∉ w) :
    ∀ k, 0 < k → k < w.length → isPre (w.drop k) p = false := by
  intro k _ hk
  cases hq : isPre (w.drop k) p with
  | false => rfl
  | true =>
    exfalso
    rcases (isPre_iff _ _).mp hq with ⟨t, ht⟩
    have hne : w.drop k ≠ [] := by
      intro h0
      have := congrArg List.length h0
      simp at this
      omega
    obtain ⟨c0, cs0, hcons⟩ : ∃ c0 cs0, w.drop k = c0 :: cs0 := by
      cases hdk : w.drop k with
      | nil => exact absurd hdk hne
      | cons a b => exact ⟨a, b, rfl⟩
    have hc0 : c0 = co := by
      have h2 : p.head? = some c0 := by
        rw [ht, hcons]
        rfl
      rw [hhead] at h2
      exact (Option.some.injEq _ _ ▸ h2).symm
    refine hco ?_
    rw [← hc0]
    exact List.mem_of_mem_drop (by rw [hcons]; simp)

theorem additionalAppLines_missing (mode : String)
    (catApps : List (String × AppEntry)) (catSel : List (String × AppSel))
    (app_id : String) (app_data : AppEntry)
    (halook : alookup app_id catApps = some app_data)
    (hinst : app_data.installation_types = none)
    (hcmd : app_data.command = none) :
    additionalAppLines mode catApps catSel app_id =
      ["color_echo \"yellow\" \"Installing " ++ app_data.name.getD app_id
        ++ "...\"",
       "# Warning: No command found for " ++ app_data.name.getD app_id] := by
  simp [additionalAppLines, halook, hinst, hcmd, PyCmd.falsy]

theorem categoryLines_mem_of_sel (mode : String)
    (addCats : List (String × Category)) (cat : String)
    (catSel : List (String × AppSel)) (catData : Category)
    (catApps : List (String × AppEntry)) (app_id : String) (v : AppSel)
    (Lc : List String)
    (hcatData : alookup cat addCats = some catData)
    (happs : catData.apps = some catApps)
    (hselmem : (app_id, v) ∈ catSel) (hsel : v.isSelected = true)
    (hok : categoryLines mode addCats cat catSel = .ok Lc) :
    ∀ l ∈ additionalAppLines mode catApps catSel app_id, l ∈ Lc := by
  intro l hl
  have happmem : app_id ∈ catSel.filterMap
      (fun kv => if kv.2.isSelected then some kv.1 else none) :=
    List.mem_filterMap.mpr ⟨(app_id, v), hselmem, by rw [hsel]; simp⟩
  have hne : (catSel.filterMap
      (fun kv => if kv.2.isSelected then some kv.1 else none)).isEmpty
        = false := by
    rw [List.isEmpty_eq_false]
    exact List.ne_nil_of_mem happmem
  simp only [categoryLines, hcatData, happs, hne, Bool.false_eq_true,
    if_false] at hok
  have hLc : ("# Install " ++ catData.name.getD cat ++ " applications") ::
      (catSel.filterMap
        (fun kv => if kv.2.isSelected then some kv.1 else none)).flatMap
        (additionalAppLines mode catApps catSel) ++ [""] = Lc := by
    injection hok
  rw [← hLc]
  refine List.mem_cons.mpr (Or.inr (List.mem_append.mpr (Or.inl ?_)))
  exact List.mem_flatMap.mpr ⟨app_id, happmem, hl⟩

theorem preserve_marked {p r w : List Char}
    (hpne : p ≠ []) (hwne : w ≠ [])
    (hhead : p.head? = some openBrace)
    (hlast : ∀ i, i < p.length → closeBrace ∈ p.drop i)
    (hO : openBrace ∉ w) (hC : closeBrace ∉ w)
    (hdist : ∃ c, c ∈ w ∧ c ∉ p) (s : List Char)
    (h : occursIn w s) : occursIn w (replaceAll p r s) := by
  obtain ⟨c, hcw, hcp⟩ := hdist
  exact occursIn_replaceAll_preserve hpne hwne
    (not_occursIn_of_mem_not_mem hcw hcp)
    (not_occursIn_of_mem_not_mem (head_mem_of_head_eq hhead) hO)
    (isPre_drop_false_of_last hlast hC)
    (isPre_drop_false_of_head hhead hO)
    s.length s (Nat.le_refl _) h

theorem preserve_token {p r w : List Char} (hp : p ≠ []) (hw : w ≠ [])
    (h1 : subList w p = false) (h2 : subList p w = false)
    (H3 : ∀ i, i < p.length → (0 < i → isPre (p.drop i) w = false))
    (H4 : ∀ k, k < w.length → (0 < k → isPre (w.drop k) p = false))
    (s : List Char) (h : occursIn w s) : occursIn w (replaceAll p r s) :=
  occursIn_replaceAll_preserve hp hw (not_occursIn_of_subList_false h1)
    (not_occursIn_of_subList_false h2)
    (fun i h0 hi => H3 i hi h0) (fun k h0 hk => H4 k hk h0)
    s.length s (Nat.le_refl _) h

/-- Claim C5 counterexample: with the malformed catalog entry of
`nattdMissingCmd` selected, `build_app_install` does emit the missing-command
warning comment, but `build_full_script` applied to the empty template
returns the empty string — not a non-empty string containing the warning, as
the total-function guarantee asserts of the full entry point. -/
theorem total_function_counterexample :
    pyIn "# Warning: No command found for Docker"
      (build_app_install nattdMissingCmd optsMissingCmd "Verbose") = true
    ∧ build_full_script "" nattdMissingCmd optsMissingCmd "Verbose" = "" := by
  exact ⟨by decide, by decide⟩

/-- Claim C5 (amended): the entry points are total Lean functions, and for a
selected catalog entry whose `command` key is missing (and that names no
installation types), the section and the preview `build_script` contain the
missing-command warning comment, with the preview never empty; the full
script contains it provided the template mentions the
`\x7b\x7bapp_install\x7d\x7d` slot and the app's display name is brace-free
(the empty template refutes the unconditional claim); sections that do not
read `additional_apps` render identically whatever that catalog key holds. -/
theorem missing_command_warning
    (template : String) (nattd : Nattd) (opts : Options) (mode : String)
    (addCats : List (String × Category))
    (addOpts : List (String × List (String × AppSel)))
    (cat : String) (catSel : List (String × AppSel)) (catData : Category)
    (catApps : List (String × AppEntry)) (app_id : String)
    (app_data : AppEntry) (v : AppSel) (L : List String)
    (haa : nattd.additional_apps = some addCats)
    (hao : opts.additional_apps = some addOpts)
    (hmemCat : (cat, catSel) ∈ addOpts)
    (hLok : additionalCatsLines mode addCats addOpts = Except.ok L)
    (hcatData : alookup cat addCats = some catData)
    (happs : catData.apps = some catApps)
    (hselmem : (app_id, v) ∈ catSel)
    (hsel : v.isSelected = true)
    (halook : alookup app_id catApps = some app_data)
    (hinst : app_data.installation_types = none)
    (hcmd : app_data.command = none)
    (hnO : openBrace ∉ (app_data.name.getD app_id).data)
    (hnC : closeBrace ∉ (app_data.name.getD app_id).data)
    (h12 : occursIn ("\x7b\x7bapp_install\x7d\x7d" : String).data
      template.data) :
    occursIn ("# Warning: No command found for "
        ++ app_data.name.getD app_id).data
      (build_app_install nattd opts mode).data
    ∧ (build_script nattd opts mode ≠ ""
       ∧ occursIn ("# Warning: No command found for "
            ++ app_data.name.getD app_id).data
          (build_script nattd opts mode).data)
    ∧ occursIn ("# Warning: No command found for "
        ++ app_data.name.getD app_id).data
      (build_full_script template nattd opts mode).data
    ∧ (∀ a2 : Option (List (String × Category)),
        build_system_config { nattd with additional_apps := a2 } opts mode
          = build_system_config nattd opts mode
        ∧ build_customization { nattd with additional_apps := a2 } opts mode
          = build_customization nattd opts mode) := by
  obtain ⟨Lc, hLc, hsub⟩ :=
    additionalCatsLines_ok_sub mode addCats addOpts L hLok cat catSel hmemCat
  have hwLc : ("# Warning: No command found for "
      ++ app_data.name.getD app_id) ∈ Lc := by
    refine categoryLines_mem_of_sel mode addCats cat catSel catData catApps
      app_id v Lc hcatData happs hselmem hsel hLc _ ?_
    rw [additionalAppLines_missing mode catApps catSel app_id app_data
      halook hinst hcmd]
    simp
  have hbai : build_app_install nattd opts mode
      = joinLines (essentialLines nattd opts mode ++ L) := by
    simp only [build_app_install, hao, haa, hLok]
  have hwa : occursIn ("# Warning: No command found for "
      ++ app_data.name.getD app_id).data
      (build_app_install nattd opts mode).data := by
    rw [hbai]
    exact occursIn_joinLines _ _ (List.mem_append.mpr (Or.inr (hsub _ hwLc)))
  have hwd : ("# Warning: No command found for "
      ++ app_data.name.getD app_id).data
      = ("# Warning: No command found for " : String).data
        ++ (app_data.name.getD app_id).data := String.data_append _ _
  have hashw : '#' ∈ ("# Warning: No command found for "
      ++ app_data.name.getD app_id).data := by
    rw [hwd]
    exact List.mem_append_left _ (by decide)
  have hWw : 'W' ∈ ("# Warning: No command found for "
      ++ app_data.name.getD app_id).data := by
    rw [hwd]
    exact List.mem_append_left _ (by decide)
  have hOw : openBrace ∉ ("# Warning: No command found for "
      ++ app_data.name.getD app_id).data := by
    rw [hwd]
    intro hm
    rcases List.mem_append.mp hm with hm | hm
    · exact absurd hm (by decide)
    · exact hnO hm
  have hCw : closeBrace ∉ ("# Warning: No command found for "
      ++ app_data.name.getD app_id).data := by
    rw [hwd]
    intro hm
    rcases List.mem_append.mp hm with hm | hm
    · exact absurd hm (by decide)
    · exact hnC hm
  have hwne : ("# Warning: No command found for "
      ++ app_data.name.getD app_id).data ≠ [] := List.ne_nil_of_mem hWw
  have hISne : build_app_install nattd opts mode ≠ "" := by
    intro h0
    have hm := mem_of_occursIn hwa hashw
    rw [h0] at hm
    exact absurd hm (by decide)
  have hstr : pystrip (build_app_install nattd opts mode) ≠ "" :=
    pystrip_ne_empty (by decide) (mem_of_occursIn hwa hashw)
  have hgate : (decide (build_app_install nattd opts mode ≠ "")
      && decide (pystrip (build_app_install nattd opts mode) ≠ "")) = true := by
    simp [hISne, hstr]
  have hpcmem : ("app_install", build_app_install nattd opts mode)
      ∈ scriptParts nattd opts mode := by
    simp [scriptParts]
  have hfold := build_foldl_contains
    ("# Warning: No command found for " ++ app_data.name.getD app_id).data
    (scriptParts nattd opts mode) previewHeader
    ("app_install", build_app_install nattd opts mode) hpcmem hgate hwa
  have hbs : build_script nattd opts mode
      = (scriptParts nattd opts mode).foldl
          (fun acc pc =>
            if pc.2 ≠ "" && pystrip pc.2 ≠ "" then
              acc ++ "# " ++ pyTitle (pyReplace pc.1 "_" " ") ++ "\n"
                ++ pc.2 ++ "\n\n"
            else acc) previewHeader ++ previewFooter := rfl
  have hocc_bs : occursIn ("# Warning: No command found for "
      ++ app_data.name.getD app_id).data
      (build_script nattd opts mode).data := by
    rw [hbs, String.data_append]
    exact occursIn_of_mem_right hfold
  have hbs_ne : build_script nattd opts mode ≠ "" := by
    obtain ⟨t, ht⟩ := build_foldl_front (scriptParts nattd opts mode)
      previewHeader
    intro h0
    have hd : (build_script nattd opts mode).data
        = previewHeader.data ++ (t ++ previewFooter.data) := by
      rw [hbs, String.data_append, ht, List.append_assoc]
    rw [h0] at hd
    have h2 : previewHeader.data ++ (t ++ previewFooter.data)
        = ([] : List Char) := hd.symm
    exact absurd (List.append_eq_nil.mp h2).1 (by decide)
  have e0 : (build_full_script template nattd opts mode).data
      = replaceAll ("\x7bhostname\x7d" : String).data
          (opts.hostname.getD "fedora-workstation").data
          (replaceAll ("\x7b\x7b" ++ "custom_script" ++ "\x7d\x7d" : String).data
            (build_custom_script opts mode).data
            (replaceAll
              ("\x7b\x7b" ++ "customization" ++ "\x7d\x7d" : String).data
              (build_customization nattd opts mode).data
              (replaceAll
                ("\x7b\x7b" ++ "app_install" ++ "\x7d\x7d" : String).data
                (build_app_install nattd opts mode).data
                (replaceAll
                  ("\x7b\x7b" ++ "system_config" ++ "\x7d\x7d" : String).data
                  (build_system_config nattd opts mode).data
                  (replaceAll
                    ("\x7b\x7b" ++ "system_upgrade" ++ "\x7d\x7d" : String).data
                    (build_system_upgrade opts mode).data
                    template.data))))) := rfl
  have h12a : occursIn
      (("\x7b\x7b" ++ "app_install" ++ "\x7d\x7d" : String)).data
      template.data := by
    have he : ("\x7b\x7b" ++ "app_install" ++ "\x7d\x7d" : String)
        = "\x7b\x7bapp_install\x7d\x7d" := by decide
    rw [he]
    exact h12
  have s1 : occursIn
      (("\x7b\x7b" ++ "app_install" ++ "\x7d\x7d" : String)).data
      (replaceAll ("\x7b\x7b" ++ "system_upgrade" ++ "\x7d\x7d" : String).data
        (build_system_upgrade opts mode).data template.data) :=
    preserve_token (by decide) (by decide) (by decide) (by decide)
      (by decide) (by decide) _ h12a
  have s2 : occursIn
      (("\x7b\x7b" ++ "app_install" ++ "\x7d\x7d" : String)).data
      (replaceAll ("\x7b\x7b" ++ "system_config" ++ "\x7d\x7d" : String).data
        (build_system_config nattd opts mode).data
        (replaceAll
          ("\x7b\x7b" ++ "system_upgrade" ++ "\x7d\x7d" : String).data
          (build_system_upgrade opts mode).data template.data)) :=
    preserve_token (by decide) (by decide) (by decide) (by decide)
      (by decide) (by decide) _ s1
  have hfull : occursIn ("# Warning: No command found for "
      ++ app_data.name.getD app_id).data
      (build_full_script template nattd opts mode).data := by
    rw [e0]
    refine preserve_marked (by decide) hwne (by decide) (by decide)
      hOw hCw ⟨'W', hWw, by decide⟩ _ ?_
    refine preserve_marked (by decide) hwne (by decide) (by decide)
      hOw hCw ⟨'W', hWw, by decide⟩ _ ?_
    refine preserve_marked (by decide) hwne (by decide) (by decide)
      hOw hCw ⟨'W', hWw, by decide⟩ _ ?_
    obtain ⟨x, y, hxy⟩ := replaceAll_intro
      (p := ("\x7b\x7b" ++ "app_install" ++ "\x7d\x7d" : String).data)
      (r := (build_app_install nattd opts mode).data) (by decide) _ s2
    rw [hxy]
    exact occursIn_inner x y hwa
  exact ⟨hwa, ⟨hbs_ne, hocc_bs⟩, hfull, fun a2 => ⟨rfl, rfl⟩⟩

/-- Witness for C5 at the `nattdMissingCmd` catalog and a template that
mentions the application-installation slot. -/
theorem missing_command_warning_witness :
    (nattdMissingCmd.additional_apps
        = some [("Sys", ⟨some "System",
            some [("install_docker", ⟨some "Docker", none, none, none⟩)]⟩)]
      ∧ occursIn ("\x7b\x7bapp_install\x7d\x7d" : String).data
          ("x \x7b\x7bapp_install\x7d\x7d y" : String).data)
    ∧ occursIn ("# Warning: No command found for Docker" : String).data
        (build_full_script "x \x7b\x7bapp_install\x7d\x7d y"
          nattdMissingCmd optsMissingCmd "Verbose").data := by
  refine ⟨⟨rfl, (subList_iff _ _).mp (by decide)⟩, ?_⟩
  exact (missing_command_warning "x \x7b\x7bapp_install\x7d\x7d y"
    nattdMissingCmd optsMissingCmd "Verbose"
    [("Sys", ⟨some "System",
      some [("install_docker", ⟨some "Docker", none, none, none⟩)]⟩)]
    [("Sys", [("install_docker", AppSel.sel true none)])]
    "Sys" [("install_docker", AppSel.sel true none)]
    ⟨some "System",
      some [("install_docker", ⟨some "Docker", none, none, none⟩)]⟩
    [("install_docker", ⟨some "Docker", none, none, none⟩)]
    "install_docker" ⟨some "Docker", none, none, none⟩
    (AppSel.sel true none)
    ["# Install System applications",
     "color_echo \"yellow\" \"Installing Docker...\"",
     "# Warning: No command found for Docker", ""]
    rfl rfl (by decide) rfl rfl rfl (by decide) rfl rfl rfl rfl
    (by decide) (by decide)
    ((subList_iff _ _).mp (by decide))).2.2.1

end NATTD
